import Mathlib

/-!
# FastGrid: sparse dual grid construction (src/libmc/FastGrid.cpp)

A shallow embedding of the grid construction of `FastGrid.cpp`:
the two static corner tables, `findQueryPoint`, `createGrid`, `calcIndices`,
`calcQueryPointValues`, the loop of `createMesh` and the lookups of `writeGrid`,
followed by theorems about them.

Conventions of the embedding

* `hash_map<int, FastBox*> cells` is an association list of key / box pairs,
  `cells.find` is `find`, `cells[h] = box` is `assign`.
* `vector<QueryPoint> query_points` is a list, `push_back` appends at the end.
* `float` values are exact rationals. `calcIndices` is also given with its
  float operations as parameters (`calcIndicesWith`), so that statements
  about the stored indices hold for the rounded operations as well;
  `singleOps` rounds every result to 24 significant bits. `createGridAt` is
  the point loop of `createGrid` with the index of each point given.
* `hashValue`, `calcIndex` and `HGCreateTable` are declared in headers that
  are not part of the translated file; they are fields of `Env`. The
  interpolator's `distance` and `FastBox::calcApproximation` are parameters.
* `int` values are mathematical integers, except in the key packing
  (`hashValue` and the product `max_index_square`), where the 32 bit
  wrap-around is explicit (`wrap32`). The counters `global_index` count the
  entries of `query_points` and the vertices of the mesh and are kept
  unbounded.
-/

namespace FastGrid

/-! ## Static tables -/

/-- The table `shared_vertex_table[8][28]`: row = query vertex, seven quadruples
`dx, dy, dz, vertex` per row. -/
def shared_vertex_table : List (List Int) := [
  [-1, 0, 0, 1, -1, -1, 0, 2,  0, -1, 0, 3, -1,  0, -1, 5, -1, -1, -1, 6,  0, -1, -1, 7,  0,  0, -1, 4],
  [ 1, 0, 0, 0,  1, -1, 0, 3,  0, -1, 0, 2,  0,  0, -1, 5,  1,  0, -1, 4,  1, -1, -1, 7,  0, -1, -1, 6],
  [ 1, 1, 0, 0,  0,  1, 0, 1,  1,  0, 0, 3,  1,  1, -1, 4,  0,  1, -1, 5,  0,  0, -1, 6,  1,  0, -1, 7],
  [ 0, 1, 0, 0, -1,  1, 0, 1, -1,  0, 0, 2,  0,  1, -1, 4, -1,  1, -1, 5, -1,  0, -1, 6,  0,  0, -1, 7],
  [ 0, 0, 1, 0, -1,  0, 1, 1, -1, -1, 1, 2,  0, -1,  1, 3, -1,  0,  0, 5, -1, -1,  0, 6,  0, -1,  0, 7],
  [ 1, 0, 1, 0,  0,  0, 1, 1,  0, -1, 1, 2,  1, -1,  1, 3,  1,  0,  0, 4,  0, -1,  0, 6,  1, -1,  0, 7],
  [ 1, 1, 1, 0,  0,  1, 1, 1,  0,  0, 1, 2,  1,  0,  1, 3,  1,  1,  0, 4,  0,  1,  0, 5,  1,  0,  0, 7],
  [ 0, 1, 1, 0, -1,  1, 1, 1, -1,  0, 1, 2,  0,  0,  1, 3,  0,  1,  0, 4, -1,  1,  0, 5, -1,  0,  0, 6]]

/-- The table `box_creation_table[8][3]`: where each box vertex lies relative
to the box centre. -/
def box_creation_table : List (List Int) := [
  [-1, -1, -1],
  [ 1, -1, -1],
  [ 1,  1, -1],
  [-1,  1, -1],
  [-1, -1,  1],
  [ 1, -1,  1],
  [ 1,  1,  1],
  [-1,  1,  1]]

/-- The table read `t[r][c]`. -/
def tableAt (t : List (List Int)) (r c : Nat) : Int := (t.getD r []).getD c 0

/-- An integer voxel coordinate, or a point of the doubled corner lattice. -/
abbrev Coord := Int × Int × Int

/-- The `i`-th quadruple of row `position` of `shared_vertex_table`, as
`findQueryPoint` reads it with `offset = i * 4`. -/
def sharedEntry (position i : Nat) : Int × Int × Int × Int :=
  (tableAt shared_vertex_table position (i * 4),
   tableAt shared_vertex_table position (i * 4 + 1),
   tableAt shared_vertex_table position (i * 4 + 2),
   tableAt shared_vertex_table position (i * 4 + 3))

/-- The seven quadruples of row `position`, in table order. -/
def sharedRow (position : Nat) : List (Int × Int × Int × Int) :=
  (List.range 7).map (sharedEntry position)

/-- Corner `k` of the cell at voxel coordinate `c`, on the doubled integer
lattice: `2 * c + box_creation_table[k]`. -/
def corner (c : Coord) (k : Nat) : Coord :=
  (2 * c.1 + tableAt box_creation_table k 0,
   2 * c.2.1 + tableAt box_creation_table k 1,
   2 * c.2.2 + tableAt box_creation_table k 2)

/-! ## Data model -/

/-- A position in space (`Vertex`), with exact rational coordinates. -/
structure Vertex where
  x : ℚ
  y : ℚ
  z : ℚ
deriving DecidableEq

/-- A sample of the distance field: `QueryPoint` holds a position and a
distance value. -/
structure QueryPoint where
  position : Vertex
  distance : ℚ
deriving DecidableEq

/-- Modelled from the spec: the constructor `QueryPoint(position)` of
QueryPoint.h, which is not part of the translated file. The field value is
not yet set; the embedding stores 0 and nothing depends on it. -/
def QueryPoint.ofPosition (position : Vertex) : QueryPoint := ⟨position, 0⟩

/-- A grid cell: `FastBox` holds the indices of its eight corner samples in
`vertices[8]`. -/
structure FastBox where
  vertices : List Int
deriving DecidableEq

/-- Modelled from the spec: the constructor of FastBox.h, which is not part of
the translated file: a fresh cell has all eight slots unresolved (-1). -/
def FastBox.fresh : FastBox := ⟨List.replicate 8 (-1)⟩

/-- The read `b->vertices[q]`. -/
def FastBox.vertex (b : FastBox) (q : Nat) : Int := b.vertices.getD q (-1)

/-- The write `b->vertices[k] = v`. -/
def FastBox.setVertex (b : FastBox) (k : Nat) (v : Int) : FastBox := ⟨b.vertices.set k v⟩

/-- The parts of a `FastGrid` that grid construction reads but never writes:
the members `voxelsize` and `bounding_box.v_min`, and the three items declared
in headers outside the translated file (`hashValue`, `calcIndex`,
`HGCreateTable[8][3]`). -/
structure Env where
  hashValue : Int → Int → Int → Int
  calcIndex : ℚ → Int
  HGCreateTable : List (List Int)
  voxelsize : ℚ
  v_min : Vertex

/-- The lookup `cells.find(hash)`; `none` stands for `cells.end()`. -/
def find : List (Int × FastBox) → Int → Option FastBox
  | [], _ => none
  | e :: rest, hash => if e.1 = hash then some e.2 else find rest hash

/-- The assignment `cells[hash] = box`: the entry of `hash` is replaced, or
created when there is none. -/
def assign (cells : List (Int × FastBox)) (hash : Int) (box : FastBox) :
    List (Int × FastBox) :=
  (hash, box) :: cells.filter (fun e => decide (e.1 ≠ hash))

/-- What `createGrid` writes: the members `cells` and `query_points`, and its
local counter `global_index`. -/
structure GridState where
  cells : List (Int × FastBox)
  query_points : List QueryPoint
  global_index : Int
deriving DecidableEq

/-! ## findQueryPoint -/

/-- The loop of `findQueryPoint` over the remaining values of `i`; the early
`return` ends it, falling out of the loop gives -1. -/
def findQueryPointLoop (E : Env) (cells : List (Int × FastBox)) (position : Nat)
    (x y z : Int) : List Nat → Int
  | [] => -1
  | i :: rest =>
    let offset := i * 4
    let n_x := x + tableAt shared_vertex_table position offset
    let n_y := y + tableAt shared_vertex_table position (offset + 1)
    let n_z := z + tableAt shared_vertex_table position (offset + 2)
    let q_v := tableAt shared_vertex_table position (offset + 3)
    let hash := E.hashValue n_x n_y n_z
    match find cells hash with
    | some b =>
      if b.vertex q_v.toNat ≠ -1 then b.vertex q_v.toNat
      else findQueryPointLoop E cells position x y z rest
    | none => findQueryPointLoop E cells position x y z rest

/-- The function `FastGrid::findQueryPoint(position, x, y, z)`. -/
def findQueryPoint (E : Env) (cells : List (Int × FastBox)) (position : Nat)
    (x y z : Int) : Int :=
  findQueryPointLoop E cells position x y z (List.range 7)

/-! ## createGrid -/

/-- One round of the loop `for k` of `createGrid` ("Setup box"): the box under
construction, `query_points` and `global_index` before and after corner `k`.
`cells` does not change during the loop. -/
def setupVertex (E : Env) (cells : List (Int × FastBox)) (x y z : Int)
    (box_center : Vertex) (acc : FastBox × List QueryPoint × Int) (k : Nat) :
    FastBox × List QueryPoint × Int :=
  let vsh := E.voxelsize / 2
  let current_index := findQueryPoint E cells k x y z
  if current_index ≠ -1 then (acc.1.setVertex k current_index, acc.2.1, acc.2.2)
  else
    let position : Vertex :=
      ⟨box_center.x + (tableAt box_creation_table k 0 : ℚ) * vsh,
       box_center.y + (tableAt box_creation_table k 1 : ℚ) * vsh,
       box_center.z + (tableAt box_creation_table k 2 : ℚ) * vsh⟩
    (acc.1.setVertex k acc.2.2, acc.2.1 ++ [QueryPoint.ofPosition position], acc.2.2 + 1)

/-- One round of the loop `for j` of `createGrid`: the cell at
`index + HGCreateTable[j]` is created unless its key is already in `cells`. -/
def visitCell (E : Env) (index_x index_y index_z : Int) (s : GridState) (j : Nat) :
    GridState :=
  let dx := tableAt E.HGCreateTable j 0
  let dy := tableAt E.HGCreateTable j 1
  let dz := tableAt E.HGCreateTable j 2
  let hash_value := E.hashValue (index_x + dx) (index_y + dy) (index_z + dz)
  match find s.cells hash_value with
  | some _ => s
  | none =>
    let box_center : Vertex :=
      ⟨((index_x + dx : Int) : ℚ) * E.voxelsize + E.v_min.x,
       ((index_y + dy : Int) : ℚ) * E.voxelsize + E.v_min.y,
       ((index_z + dz : Int) : ℚ) * E.voxelsize + E.v_min.z⟩
    let r := (List.range 8).foldl
      (setupVertex E s.cells (index_x + dx) (index_y + dy) (index_z + dz) box_center)
      (FastBox.fresh, s.query_points, s.global_index)
    ⟨assign s.cells hash_value r.1, r.2.1, r.2.2⟩

/-- The voxel coordinate `index_x, index_y, index_z` that `createGrid` computes
for an input point. -/
def pointIndex (E : Env) (p : Vertex) : Coord :=
  (E.calcIndex ((p.x - E.v_min.x) / E.voxelsize),
   E.calcIndex ((p.y - E.v_min.y) / E.voxelsize),
   E.calcIndex ((p.z - E.v_min.z) / E.voxelsize))

/-- One round of the loop `for i` of `createGrid`: input point `p`. -/
def processPoint (E : Env) (s : GridState) (p : Vertex) : GridState :=
  (List.range 8).foldl
    (visitCell E (pointIndex E p).1 (pointIndex E p).2.1 (pointIndex E p).2.2) s

/-- The loop `for i` of `createGrid`, started in any state. -/
def createGridFrom (E : Env) (s : GridState) (points : List Vertex) : GridState :=
  points.foldl (processPoint E) s

/-- The function `FastGrid::createGrid()`, as the constructor calls it: `cells`
and `query_points` are empty, `global_index` starts at 0. -/
def createGrid (E : Env) (points : List Vertex) : GridState :=
  createGridFrom E ⟨[], [], 0⟩ points

/-! ## Cells and corners named by the claims -/

/-- Row `j` of `HGCreateTable` as an offset. -/
def createOffset (E : Env) (j : Nat) : Coord :=
  (tableAt E.HGCreateTable j 0, tableAt E.HGCreateTable j 1, tableAt E.HGCreateTable j 2)

/-- The key of a voxel coordinate. -/
def keyOf (E : Env) (c : Coord) : Int := E.hashValue c.1 c.2.1 c.2.2

/-- The coordinates `index + HGCreateTable[j]`, `j = 0..7`, visited for an index. -/
def cellsAround (E : Env) (idx : Coord) : List Coord :=
  (List.range 8).map (fun j =>
    (idx.1 + (createOffset E j).1, idx.2.1 + (createOffset E j).2.1,
     idx.2.2 + (createOffset E j).2.2))

/-- All coordinates `createGrid` visits for the input points, in order. -/
def cellCoords (E : Env) (points : List Vertex) : List Coord :=
  points.flatMap (fun p => cellsAround E (pointIndex E p))

/-- The eight corners of each cell of a list, on the doubled lattice. -/
def cornersOf (cs : List Coord) : List Coord :=
  cs.flatMap (fun c => (List.range 8).map (corner c))

/-! ## The loops of createGrid, cell by cell -/

/-- The world position of corner `k` of a box with centre `box_center`, as
computed in the `else` branch of the loop `for k` of `createGrid`. -/
def cornerPosition (E : Env) (box_center : Vertex) (k : Nat) : Vertex :=
  ⟨box_center.x + (tableAt box_creation_table k 0 : ℚ) * (E.voxelsize / 2),
   box_center.y + (tableAt box_creation_table k 1 : ℚ) * (E.voxelsize / 2),
   box_center.z + (tableAt box_creation_table k 2 : ℚ) * (E.voxelsize / 2)⟩

/-- The box centre computed in `createGrid` for the cell at `c`. -/
def boxCenter (E : Env) (c : Coord) : Vertex :=
  ⟨(c.1 : ℚ) * E.voxelsize + E.v_min.x,
   (c.2.1 : ℚ) * E.voxelsize + E.v_min.y,
   (c.2.2 : ℚ) * E.voxelsize + E.v_min.z⟩

/-- The loop `for k` of `createGrid` for a new cell at `c`, as a function of the
state before it. -/
def setupBox (E : Env) (s : GridState) (c : Coord) : FastBox × List QueryPoint × Int :=
  (List.range 8).foldl (setupVertex E s.cells c.1 c.2.1 c.2.2 (boxCenter E c))
    (FastBox.fresh, s.query_points, s.global_index)

/-- The body of the loop `for j` of `createGrid` (`visitCell`) as a function of
the coordinate `c = index + HGCreateTable[j]` of the visited cell. -/
def visitCoord (E : Env) (s : GridState) (c : Coord) : GridState :=
  match find s.cells (keyOf E c) with
  | some _ => s
  | none =>
    let r := setupBox E s c
    ⟨assign s.cells (keyOf E c) r.1, r.2.1, r.2.2⟩

/-- The cells of a list visited in order. -/
def visitAll (E : Env) (s : GridState) (cs : List Coord) : GridState :=
  cs.foldl (visitCoord E) s

/-! ## The coordinates whose key is computed -/

/-- The coordinates whose key the loop of `findQueryPoint` computes, in order,
up to its `return`. -/
def findQueryPointProbes (E : Env) (cells : List (Int × FastBox)) (position : Nat)
    (x y z : Int) : List Nat → List Coord
  | [] => []
  | i :: rest =>
    let offset := i * 4
    let n_x := x + tableAt shared_vertex_table position offset
    let n_y := y + tableAt shared_vertex_table position (offset + 1)
    let n_z := z + tableAt shared_vertex_table position (offset + 2)
    let q_v := tableAt shared_vertex_table position (offset + 3)
    (n_x, n_y, n_z) ::
      (match find cells (E.hashValue n_x n_y n_z) with
       | some b =>
         if b.vertex q_v.toNat ≠ -1 then []
         else findQueryPointProbes E cells position x y z rest
       | none => findQueryPointProbes E cells position x y z rest)

/-- The coordinates probed by the eight calls of `findQueryPoint` for a new cell
at `c`; `cells` is the same for all eight. -/
def setupBoxProbes (E : Env) (cells : List (Int × FastBox)) (c : Coord) : List Coord :=
  (List.range 8).flatMap (fun k =>
    findQueryPointProbes E cells k c.1 c.2.1 c.2.2 (List.range 7))

/-- The coordinates probed while the cell at `c` is visited: none when its key is
already in `cells`. -/
def visitCoordProbes (E : Env) (s : GridState) (c : Coord) : List Coord :=
  match find s.cells (keyOf E c) with
  | some _ => []
  | none => setupBoxProbes E s.cells c

/-- The coordinates probed while the cells of a list are visited in order. -/
def visitAllProbes (E : Env) : GridState → List Coord → List Coord
  | _, [] => []
  | s, c :: rest => visitCoordProbes E s c ++ visitAllProbes E (visitCoord E s c) rest

/-- The coordinates probed by `findQueryPoint` while `createGrid` runs on the
input points. -/
def probedCoords (E : Env) (points : List Vertex) : List Coord :=
  visitAllProbes E ⟨[], [], 0⟩ (cellCoords E points)

/-- All coordinates created or probed while `createGrid` runs on the input
points: every coordinate whose key is computed. -/
def touchedCoords (E : Env) (points : List Vertex) : List Coord :=
  cellCoords E points ++ probedCoords E points

/-! ## Predicates and invariants -/

/-- The key function is injective on a list of coordinates. -/
def HashInjOn (E : Env) (cs : List Coord) : Prop :=
  ∀ a ∈ cs, ∀ b ∈ cs, keyOf E a = keyOf E b → a = b

/-- Candidate `e = (dx, dy, dz, q)` of the cell at `(x, y, z)` is resolved: the
cell at `(x + dx, y + dy, z + dz)` is in `cells` and its slot `q` is not -1. -/
def Resolved (E : Env) (cells : List (Int × FastBox)) (x y z : Int)
    (e : Int × Int × Int × Int) : Prop :=
  ∃ b, find cells (E.hashValue (x + e.1) (y + e.2.1) (z + e.2.2.1)) = some b ∧
    b.vertex e.2.2.2.toNat ≠ -1

/-- Every slot of every stored cell is an index into `query_points`, and the
counter `global_index` is the number of query points. -/
def SlotsValid (s : GridState) : Prop :=
  s.global_index = s.query_points.length ∧
  ∀ e ∈ s.cells, e.2.vertices.length = 8 ∧
    ∀ k < 8, 0 ≤ e.2.vertex k ∧ e.2.vertex k < s.query_points.length

/-- The invariant of grid construction under an injective key function.
`C` lists the coordinates of the cells created so far (latest first), `K` the
lattice point of every query point, in index order: the keys of `cells` are
the keys of `C`, slot `k` of the cell at `c` holds the index of `corner c k`,
no lattice point has two query points, and every query point is a corner of a
created cell. -/
structure GridInv (E : Env) (s : GridState) (C K : List Coord) : Prop where
  keys : s.cells.map Prod.fst = C.map (keyOf E)
  nodupC : C.Nodup
  slots : ∀ c ∈ C, ∃ b, find s.cells (keyOf E c) = some b ∧ b.vertices.length = 8 ∧
    ∀ k < 8, ∃ n : Nat, b.vertex k = (n : Int) ∧ K[n]? = some (corner c k)
  nodupK : K.Nodup
  lenK : K.length = s.query_points.length
  counter : s.global_index = s.query_points.length
  owned : ∀ p ∈ K, ∃ c ∈ C, ∃ k < 8, p = corner c k

/-! ## calcIndices and the key packing -/

/-- An `int` result: the value wrapped into the 32 bit two's complement range. -/
def wrap32 (n : Int) : Int := (n + 2 ^ 31) % 2 ^ 32 - 2 ^ 31

/-- The grid parameters that `calcIndices` saves. -/
structure GridIndices where
  max_index : Int
  max_index_square : Int
  max_index_x : Int
  max_index_y : Int
  max_index_z : Int
deriving DecidableEq

/-- The function `FastGrid::calcIndices()`, from the extents of the bounding
box and the voxel size; `(int)ceil(..)` is the exact ceiling. -/
def calcIndices (x_size y_size z_size voxelsize : ℚ) : GridIndices :=
  let max_size := max (max x_size y_size) z_size
  let max_index : Int := ⌈(max_size + 5 * voxelsize) / voxelsize⌉
  { max_index := max_index
    max_index_square := wrap32 (max_index * max_index)
    max_index_x := ⌈x_size / voxelsize⌉ + 1
    max_index_y := ⌈y_size / voxelsize⌉ + 2
    max_index_z := ⌈z_size / voxelsize⌉ + 3 }

/-- Modelled from the spec: `hashValue(i, j, k)` of FastGrid.h, which is not
part of the translated file: the packing
`i * max_index_square + j * max_index + k`, computed in `int`. -/
def hashValue (I : GridIndices) (i j k : Int) : Int :=
  wrap32 (wrap32 (wrap32 (i * I.max_index_square) + wrap32 (j * I.max_index)) + k)

/-- The keys of the voxel coordinates within the per-axis counts are pairwise
different: two coordinates `(i, j, k)`, `(i', j', k')` with
`0 ≤ i, i' < max_index_x`, `0 ≤ j, j' < max_index_y`, `0 ≤ k, k' < max_index_z`
and the same key are the same coordinate. -/
def KeysInjective (I : GridIndices) : Prop :=
  ∀ i j k i' j' k' : Int,
    (0 ≤ i ∧ i < I.max_index_x) → (0 ≤ j ∧ j < I.max_index_y) → (0 ≤ k ∧ k < I.max_index_z) →
    (0 ≤ i' ∧ i' < I.max_index_x) → (0 ≤ j' ∧ j' < I.max_index_y) →
    (0 ≤ k' ∧ k' < I.max_index_z) →
    hashValue I i j k = hashValue I i' j' k' → (i, j, k) = (i', j', k')

/-! ## A concrete grid -/

/-- The eight cells of a 2x2x2 block with lowest cell `o`. -/
def blockCells (o : Coord) : List Coord :=
  [(o.1, o.2.1, o.2.2), (o.1 + 1, o.2.1, o.2.2), (o.1 + 1, o.2.1 + 1, o.2.2),
   (o.1, o.2.1 + 1, o.2.2), (o.1, o.2.1, o.2.2 + 1), (o.1 + 1, o.2.1, o.2.2 + 1),
   (o.1 + 1, o.2.1 + 1, o.2.2 + 1), (o.1, o.2.1 + 1, o.2.2 + 1)]

/-- Modelled from the spec: a grid as the spec describes the parts that are not
in the translated file: `HGCreateTable` lists the eight cells of the cube
around a point, `calcIndex` is the floor, and the key is the packing
`hashValue` with `max_index = 9`, the value `calcIndices` gives for a bounding
box of extent 4 in each direction. Voxel size 1, bounding box minimum at the
origin. -/
def unitGrid : Env where
  hashValue := hashValue ⟨9, 81, 5, 6, 7⟩
  calcIndex := fun f => ⌊f⌋
  HGCreateTable := [[0, 0, 0], [1, 0, 0], [1, 1, 0], [0, 1, 0],
                    [0, 0, 1], [1, 0, 1], [1, 1, 1], [0, 1, 1]]
  voxelsize := 1
  v_min := ⟨0, 0, 0⟩

/-- A coordinate moved by `t`. -/
def shift (t c : Coord) : Coord := (t.1 + c.1, t.2.1 + c.2.1, t.2.2 + c.2.2)

/-! ## calcQueryPointValues -/

/-- A vertex with a colour (`ColorVertex`), as `calcQueryPointValues` builds it
from a position. -/
structure ColorVertex where
  position : Vertex
  r : ℚ
  g : ℚ
  b : ℚ
deriving DecidableEq

/-- One round of the loop of `calcQueryPointValues`: entry `i` of `query_points`
is read, its `distance` is set to the interpolator's distance of the green
colour vertex at its position, and the entry is written back. -/
def calcQueryPointValue (distance : ColorVertex → ℚ) (query_points : List QueryPoint)
    (i : Nat) : List QueryPoint :=
  match query_points[i]? with
  | some p => query_points.set i ⟨p.position, distance ⟨p.position, 0, 1, 0⟩⟩
  | none => query_points

/-- The function `FastGrid::calcQueryPointValues()`; `distance` is
`interpolator->distance`, which is outside the translated file. -/
def calcQueryPointValues (distance : ColorVertex → ℚ) (query_points : List QueryPoint) :
    List QueryPoint :=
  (List.range query_points.length).foldl (calcQueryPointValue distance) query_points

/-! ## writeGrid -/

/-- The read `query_points[i]` with an `int` index; `none` when the index is out
of range. -/
def queryPointAt (query_points : List QueryPoint) (i : Int) : Option QueryPoint :=
  if 0 ≤ i then query_points[i.toNat]? else none

/-- The loop `for i` of `writeGrid` for one box: the positions written, or `none`
when a lookup is out of range. -/
def writeBox (query_points : List QueryPoint) (box : FastBox) : List Nat → Option (List Vertex)
  | [] => some []
  | i :: rest =>
    match queryPointAt query_points (box.vertex i) with
    | none => none
    | some qp => (writeBox query_points box rest).map (fun vs => qp.position :: vs)

/-- The loop over `cells` of `writeGrid`: the positions written for all boxes. -/
def writeCells (query_points : List QueryPoint) : List (Int × FastBox) → Option (List Vertex)
  | [] => some []
  | e :: rest =>
    match writeBox query_points e.2 (List.range 8) with
    | none => none
    | some vs => (writeCells query_points rest).map (fun ws => vs ++ ws)

/-- The vertex lines of `FastGrid::writeGrid()` (the part after the input
points), or `none` when a lookup `query_points[box->vertices[i]]` is out of
range. -/
def writeGrid (s : GridState) : Option (List Vertex) :=
  writeCells s.query_points s.cells

/-! ## createMesh -/

/-- The function `FastGrid::createMesh()` up to the hand-over to the mesh: the
loop over `cells` with the running counter `global_index`, which starts at 0.
`calcApproximation` is `FastBox::calcApproximation(query_points, mesh,
global_index)`, which is outside the translated file; it changes the mesh and
returns the new counter. The result is the mesh and the counter after the
loop. -/
def createMesh {Mesh : Type} (calcApproximation : FastBox → List QueryPoint → Mesh → Int → Mesh × Int)
    (cells : List (Int × FastBox)) (query_points : List QueryPoint) (mesh : Mesh) :
    Mesh × Int :=
  cells.foldl (fun acc e => calcApproximation e.2 query_points acc.1 acc.2) (mesh, 0)

/-- The counters the calls of `calcApproximation` receive in `createMesh`, in
iteration order. -/
def createMeshCounters {Mesh : Type}
    (calcApproximation : FastBox → List QueryPoint → Mesh → Int → Mesh × Int)
    (query_points : List QueryPoint) : List (Int × FastBox) → Mesh × Int → List Int
  | [], _ => []
  | e :: rest, acc =>
    acc.2 :: createMeshCounters calcApproximation query_points rest
      (calcApproximation e.2 query_points acc.1 acc.2)

/-- A polygonizer that numbers the vertices it emits from the counter it
receives and returns the counter plus their number; `emitted` reads the vertex
indices of a mesh in the order of emission. -/
def NumbersFromCounter {Mesh : Type}
    (calcApproximation : FastBox → List QueryPoint → Mesh → Int → Mesh × Int)
    (emitted : Mesh → List Int) : Prop :=
  ∀ (b : FastBox) (qp : List QueryPoint) (m : Mesh) (g : Int), ∃ n : Nat,
    (calcApproximation b qp m g).2 = g + n ∧
    emitted (calcApproximation b qp m g).1 = emitted m ++ (List.range n).map (fun (i : Nat) => g + (i : Int))

/-! ## Positions of the corners -/

/-- The position the claims give to corner `k` of the cell at `c`:
`v_min + c * voxelsize + box_creation_table[k] * (voxelsize / 2)`, componentwise. -/
def slotPosition (E : Env) (c : Coord) (k : Nat) : Vertex :=
  ⟨E.v_min.x + (c.1 : ℚ) * E.voxelsize + (tableAt box_creation_table k 0 : ℚ) * (E.voxelsize / 2),
   E.v_min.y + (c.2.1 : ℚ) * E.voxelsize + (tableAt box_creation_table k 1 : ℚ) * (E.voxelsize / 2),
   E.v_min.z + (c.2.2 : ℚ) * E.voxelsize + (tableAt box_creation_table k 2 : ℚ) * (E.voxelsize / 2)⟩

/-- The position of a point of the doubled corner lattice. -/
def latticePosition (E : Env) (p : Coord) : Vertex :=
  ⟨E.v_min.x + (p.1 : ℚ) * (E.voxelsize / 2),
   E.v_min.y + (p.2.1 : ℚ) * (E.voxelsize / 2),
   E.v_min.z + (p.2.2 : ℚ) * (E.voxelsize / 2)⟩

/-- The invariant of grid construction for the positions, under an injective
key function. `C` lists the coordinates of the cells created so far: the keys
of `cells` are the keys of `C`, the counter is the number of query points, and
slot `k` of the cell at `c` is the index of a query point at
`slotPosition E c k`. -/
structure PosInv (E : Env) (s : GridState) (C : List Coord) : Prop where
  keys : s.cells.map Prod.fst = C.map (keyOf E)
  counter : s.global_index = s.query_points.length
  slots : ∀ c ∈ C, ∃ b, find s.cells (keyOf E c) = some b ∧
    ∀ k < 8, ∃ (n : Nat) (qp : QueryPoint), b.vertex k = (n : Int) ∧
      s.query_points[n]? = some qp ∧ qp.position = slotPosition E c k

/-! ## Grids for the error cases -/

/-- Modelled from the spec: the grid of `unitGrid` with the key packing for a
bounding box of extent 2043 x 0 x 0 (`max_index = 2048`, the indices of
`calcIndices 2043 0 0 1`). -/
def wideGrid : Env where
  hashValue := hashValue ⟨2048, 4194304, 2044, 2, 3⟩
  calcIndex := fun f => ⌊f⌋
  HGCreateTable := [[0, 0, 0], [1, 0, 0], [1, 1, 0], [0, 1, 0],
                    [0, 0, 1], [1, 0, 1], [1, 1, 1], [0, 1, 1]]
  voxelsize := 1
  v_min := ⟨0, 0, 0⟩

/-- Modelled from the spec: the grid of `unitGrid` with voxel size -1 and the
key packing for the indices of `calcIndices 4 4 4 (-1)`. -/
def negativeGrid : Env where
  hashValue := hashValue ⟨1, 1, -3, -2, -1⟩
  calcIndex := fun f => ⌊f⌋
  HGCreateTable := [[0, 0, 0], [1, 0, 0], [1, 1, 0], [0, 1, 0],
                    [0, 0, 1], [1, 0, 1], [1, 1, 1], [0, 1, 1]]
  voxelsize := -1
  v_min := ⟨0, 0, 0⟩

/-- A polygonizer that emits three vertices for every box, numbered from the
counter it receives; the mesh is the list of the vertex indices emitted. -/
def threeVertexPolygonizer (_b : FastBox) (_qp : List QueryPoint) (m : List Int) (g : Int) :
    List Int × Int :=
  (m ++ (List.range 3).map (fun (i : Nat) => g + (i : Int)), g + 3)

/-! ## calcIndices with rounded float operations -/

/-- The `float` operations of `calcIndices` as the machine performs them, with
their rounding: `add a b` is `a + b`, `mul a b` is `a * b`, and `ceilDiv a b` is
`(int)ceil(a / b)`. The values are the numbers the `float`s stand for; nothing is
assumed about the rounding. -/
structure FloatOps where
  add : ℚ → ℚ → ℚ
  mul : ℚ → ℚ → ℚ
  ceilDiv : ℚ → ℚ → Int

/-- The function `FastGrid::calcIndices()` with the float operations `F`. -/
def calcIndicesWith (F : FloatOps) (x_size y_size z_size voxelsize : ℚ) : GridIndices :=
  let max_size := max (max x_size y_size) z_size
  let max_index : Int := F.ceilDiv (F.add max_size (F.mul 5 voxelsize)) voxelsize
  { max_index := max_index
    max_index_square := wrap32 (max_index * max_index)
    max_index_x := F.ceilDiv x_size voxelsize + 1
    max_index_y := F.ceilDiv y_size voxelsize + 2
    max_index_z := F.ceilDiv z_size voxelsize + 3 }

/-- The float operations without rounding; `calcIndices` is `calcIndicesWith`
for them. -/
def exactOps : FloatOps where
  add := fun a b => a + b
  mul := fun a b => a * b
  ceilDiv := fun a b => ⌈a / b⌉

/-- A number rounded to the nearest number with 24 significant bits, as a
`float` holds it. -/
def roundSingle (q : ℚ) : ℚ :=
  if q = 0 then 0
  else (round (q / (2 : ℚ) ^ (Int.log 2 |q| - 23)) : ℚ) * (2 : ℚ) ^ (Int.log 2 |q| - 23)

/-- The float operations with every result rounded to 24 significant bits. -/
def singleOps : FloatOps where
  add := fun a b => roundSingle (a + b)
  mul := fun a b => roundSingle (a * b)
  ceilDiv := fun a b => ⌈roundSingle (a / b)⌉

/-- The float operations that `calcIndices` performs for the extents `x_size`,
`y_size`, `z_size` and the voxel size round with a relative error of at most
`u`: the product `5 * voxelsize`, the sum `max_size + 5 * voxelsize` and the four
quotients differ from the exact results on the same operands by at most `u`
times their size, and `(int)ceil(a / voxelsize)` is the ceiling of such a
quotient. -/
def RoundsWithin (u : ℚ) (F : FloatOps) (x_size y_size z_size voxelsize : ℚ) : Prop :=
  |F.mul 5 voxelsize - 5 * voxelsize| ≤ u * |5 * voxelsize| ∧
  |F.add (max (max x_size y_size) z_size) (F.mul 5 voxelsize) -
      (max (max x_size y_size) z_size + F.mul 5 voxelsize)| ≤
    u * |max (max x_size y_size) z_size + F.mul 5 voxelsize| ∧
  ∀ a ∈ [F.add (max (max x_size y_size) z_size) (F.mul 5 voxelsize), x_size, y_size, z_size],
    ∃ d : ℚ, F.ceilDiv a voxelsize = ⌈d⌉ ∧ |d - a / voxelsize| ≤ u * |a / voxelsize|

/-- The loop `for i` of `createGrid` with the index of each point given:
`indices` holds `index_x, index_y, index_z` of the points in order, as the loop
computed them. -/
def createGridAt (E : Env) (s : GridState) (indices : List Coord) : GridState :=
  indices.foldl (fun t idx => (List.range 8).foldl (visitCell E idx.1 idx.2.1 idx.2.2) t) s

/-! # Lemmas -/

/-! ## Lookup and assignment -/

theorem find_eq_some_mem {cells : List (Int × FastBox)} {h : Int} {b : FastBox}
    (hf : find cells h = some b) : (h, b) ∈ cells := by
  induction cells with
  | nil => simp [find] at hf
  | cons e rest ih =>
    unfold find at hf
    split at hf
    · rename_i he
      simp only [Option.some.injEq] at hf
      subst hf; subst he
      exact List.mem_cons_self _ _
    · exact List.mem_cons_of_mem _ (ih hf)

theorem find_isSome_iff (cells : List (Int × FastBox)) (h : Int) :
    (find cells h).isSome ↔ h ∈ cells.map Prod.fst := by
  induction cells with
  | nil => simp [find]
  | cons e rest ih =>
    unfold find
    by_cases he : e.1 = h
    · simp [he]
    · simp only [he, if_false, List.map_cons, List.mem_cons, ih]
      constructor
      · intro hm; exact Or.inr hm
      · rintro (hm | hm)
        · exact absurd hm.symm he
        · exact hm

theorem find_eq_none_iff (cells : List (Int × FastBox)) (h : Int) :
    find cells h = none ↔ h ∉ cells.map Prod.fst := by
  rw [← find_isSome_iff]
  cases find cells h <;> simp

theorem filter_ne_of_find_none {cells : List (Int × FastBox)} {h : Int}
    (hf : find cells h = none) :
    cells.filter (fun e => decide (e.1 ≠ h)) = cells := by
  rw [List.filter_eq_self]
  intro e he
  rw [find_eq_none_iff] at hf
  simp only [ne_eq, decide_eq_true_eq]
  intro heq
  exact hf (List.mem_map.mpr ⟨e, he, heq⟩)

theorem assign_of_find_none {cells : List (Int × FastBox)} {h : Int} (box : FastBox)
    (hf : find cells h = none) : assign cells h box = (h, box) :: cells := by
  unfold assign
  rw [filter_ne_of_find_none hf]

theorem find_cons_self (cells : List (Int × FastBox)) (h : Int) (box : FastBox) :
    find ((h, box) :: cells) h = some box := by
  simp [find]

theorem find_cons_ne (cells : List (Int × FastBox)) {h h' : Int} (box : FastBox)
    (hne : h ≠ h') : find ((h, box) :: cells) h' = find cells h' := by
  simp [find, hne]

/-! ## findQueryPoint -/

theorem findQueryPointLoop_cons (E : Env) (cells : List (Int × FastBox)) (position : Nat)
    (x y z : Int) (i : Nat) (rest : List Nat) :
    findQueryPointLoop E cells position x y z (i :: rest) =
      match find cells (E.hashValue (x + (sharedEntry position i).1)
          (y + (sharedEntry position i).2.1) (z + (sharedEntry position i).2.2.1)) with
      | some b =>
        if b.vertex (sharedEntry position i).2.2.2.toNat ≠ -1
        then b.vertex (sharedEntry position i).2.2.2.toNat
        else findQueryPointLoop E cells position x y z rest
      | none => findQueryPointLoop E cells position x y z rest := by
  rfl

theorem findQueryPointLoop_skip (E : Env) (cells : List (Int × FastBox)) (position : Nat)
    (x y z : Int) (i : Nat) (rest : List Nat)
    (h : ¬ Resolved E cells x y z (sharedEntry position i)) :
    findQueryPointLoop E cells position x y z (i :: rest) =
      findQueryPointLoop E cells position x y z rest := by
  rw [findQueryPointLoop_cons]
  unfold Resolved at h
  split
  · rename_i b hb
    split
    · rename_i hv
      exact absurd ⟨b, hb, hv⟩ h
    · rfl
  · rfl

theorem findQueryPointLoop_hit (E : Env) (cells : List (Int × FastBox)) (position : Nat)
    (x y z : Int) (i : Nat) (rest : List Nat) (b : FastBox)
    (hb : find cells (E.hashValue (x + (sharedEntry position i).1)
          (y + (sharedEntry position i).2.1) (z + (sharedEntry position i).2.2.1)) = some b)
    (hv : b.vertex (sharedEntry position i).2.2.2.toNat ≠ -1) :
    findQueryPointLoop E cells position x y z (i :: rest) =
      b.vertex (sharedEntry position i).2.2.2.toNat := by
  rw [findQueryPointLoop_cons, hb]
  simp only [hv, ne_eq, not_false_eq_true, if_true]

theorem findQueryPointLoop_append (E : Env) (cells : List (Int × FastBox)) (position : Nat)
    (x y z : Int) (l₁ l₂ : List Nat)
    (h : ∀ i ∈ l₁, ¬ Resolved E cells x y z (sharedEntry position i)) :
    findQueryPointLoop E cells position x y z (l₁ ++ l₂) =
      findQueryPointLoop E cells position x y z l₂ := by
  induction l₁ with
  | nil => rfl
  | cons i rest ih =>
    rw [List.cons_append, findQueryPointLoop_skip _ _ _ _ _ _ _ _ (h i (List.mem_cons_self _ _))]
    exact ih (fun j hj => h j (List.mem_cons_of_mem _ hj))

theorem findQueryPointLoop_eq_neg_one_iff (E : Env) (cells : List (Int × FastBox))
    (position : Nat) (x y z : Int) (l : List Nat) :
    findQueryPointLoop E cells position x y z l = -1 ↔
      ∀ i ∈ l, ¬ Resolved E cells x y z (sharedEntry position i) := by
  induction l with
  | nil => simp [findQueryPointLoop]
  | cons i rest ih =>
    by_cases hr : Resolved E cells x y z (sharedEntry position i)
    · obtain ⟨b, hb, hv⟩ := hr
      rw [findQueryPointLoop_hit E cells position x y z i rest b hb hv]
      constructor
      · intro h; exact absurd h hv
      · intro h; exact absurd ⟨b, hb, hv⟩ (h i (List.mem_cons_self _ _))
    · rw [findQueryPointLoop_skip _ _ _ _ _ _ _ _ hr, ih]
      constructor
      · intro h j hj
        rcases List.mem_cons.mp hj with rfl | hj
        · exact hr
        · exact h j hj
      · intro h j hj
        exact h j (List.mem_cons_of_mem _ hj)

theorem range_split (n i : Nat) (h : i < n) :
    List.range n = List.range i ++ i :: List.range' (i + 1) (n - i - 1) := by
  rw [List.range_eq_range', List.range_eq_range']
  have h1 : n = (n - i - 1 + 1) + i := by omega
  conv_lhs => rw [h1]
  rw [← List.range'_append_1, List.range'_succ]
  simp

/-- Result of `findQueryPoint` when some candidate is resolved. -/
theorem findQueryPoint_first (E : Env) (cells : List (Int × FastBox)) (position : Nat)
    (x y z : Int) (i : Nat) (hi : i < 7) (b : FastBox)
    (hb : find cells (E.hashValue (x + (sharedEntry position i).1)
          (y + (sharedEntry position i).2.1) (z + (sharedEntry position i).2.2.1)) = some b)
    (hv : b.vertex (sharedEntry position i).2.2.2.toNat ≠ -1)
    (hfirst : ∀ j < i, ¬ Resolved E cells x y z (sharedEntry position j)) :
    findQueryPoint E cells position x y z = b.vertex (sharedEntry position i).2.2.2.toNat := by
  unfold findQueryPoint
  rw [range_split 7 i hi, findQueryPointLoop_append]
  · exact findQueryPointLoop_hit E cells position x y z i _ b hb hv
  · intro j hj
    exact hfirst j (List.mem_range.mp hj)

theorem findQueryPoint_eq_neg_one_iff (E : Env) (cells : List (Int × FastBox))
    (position : Nat) (x y z : Int) :
    findQueryPoint E cells position x y z = -1 ↔
      ∀ i < 7, ¬ Resolved E cells x y z (sharedEntry position i) := by
  unfold findQueryPoint
  rw [findQueryPointLoop_eq_neg_one_iff]
  simp only [List.mem_range]

/-- A result other than -1 is the slot of a resolved candidate. -/
theorem findQueryPoint_ne_neg_one (E : Env) (cells : List (Int × FastBox))
    (position : Nat) (x y z : Int)
    (h : findQueryPoint E cells position x y z ≠ -1) :
    ∃ i < 7, ∃ b, find cells (E.hashValue (x + (sharedEntry position i).1)
          (y + (sharedEntry position i).2.1) (z + (sharedEntry position i).2.2.1)) = some b ∧
      b.vertex (sharedEntry position i).2.2.2.toNat ≠ -1 ∧
      findQueryPoint E cells position x y z = b.vertex (sharedEntry position i).2.2.2.toNat ∧
      ∀ j < i, ¬ Resolved E cells x y z (sharedEntry position j) := by
  have hex : ∃ i, i < 7 ∧ Resolved E cells x y z (sharedEntry position i) := by
    by_contra hno
    push_neg at hno
    exact h ((findQueryPoint_eq_neg_one_iff E cells position x y z).mpr hno)
  classical
  let i := Nat.find hex
  have hi : i < 7 ∧ Resolved E cells x y z (sharedEntry position i) := Nat.find_spec hex
  obtain ⟨hi7, b, hb, hv⟩ := hi
  have hfirst : ∀ j < i, ¬ Resolved E cells x y z (sharedEntry position j) := by
    intro j hj hres
    exact Nat.find_min hex hj ⟨by omega, hres⟩
  exact ⟨i, hi7, b, hb, hv, findQueryPoint_first E cells position x y z i hi7 b hb hv hfirst,
    hfirst⟩

/-! ## Loops -/

/-- Invariant rule for a counted loop `for k = 0 .. n-1`. -/
theorem foldl_range_invariant {α : Type} (f : α → Nat → α) (P : Nat → α → Prop) (n : Nat)
    (a₀ : α) (h₀ : P 0 a₀) (hstep : ∀ k < n, ∀ a, P k a → P (k + 1) (f a k)) :
    P n ((List.range n).foldl f a₀) := by
  induction n with
  | zero => simpa using h₀
  | succ m ih =>
    rw [List.range_succ, List.foldl_append]
    simp only [List.foldl_cons, List.foldl_nil]
    apply hstep m (Nat.lt_succ_self m)
    exact ih (fun k hk a ha => hstep k (Nat.lt_succ_of_lt hk) a ha)

theorem visitCell_eq_visitCoord (E : Env) (index_x index_y index_z : Int) (s : GridState)
    (j : Nat) :
    visitCell E index_x index_y index_z s j =
      visitCoord E s (index_x + (createOffset E j).1, index_y + (createOffset E j).2.1,
        index_z + (createOffset E j).2.2) := by
  rfl

theorem processPoint_eq_visitAll (E : Env) (s : GridState) (p : Vertex) :
    processPoint E s p = visitAll E s (cellsAround E (pointIndex E p)) := by
  unfold processPoint visitAll cellsAround
  rw [List.foldl_map]
  rfl

theorem visitAll_append (E : Env) (s : GridState) (cs ds : List Coord) :
    visitAll E s (cs ++ ds) = visitAll E (visitAll E s cs) ds := by
  unfold visitAll
  rw [List.foldl_append]

theorem createGridFrom_eq_visitAll (E : Env) (s : GridState) (points : List Vertex) :
    createGridFrom E s points = visitAll E s (cellCoords E points) := by
  induction points generalizing s with
  | nil => rfl
  | cons p rest ih =>
    have h1 : createGridFrom E s (p :: rest) = createGridFrom E (processPoint E s p) rest := rfl
    have h2 : cellCoords E (p :: rest) = cellsAround E (pointIndex E p) ++ cellCoords E rest := by
      simp [cellCoords]
    rw [h1, h2, visitAll_append, ih, processPoint_eq_visitAll]

/-! ## Slots of a box -/

theorem vertex_setVertex_self (b : FastBox) (k : Nat) (v : Int) (hk : k < b.vertices.length) :
    (b.setVertex k v).vertex k = v := by
  simp [FastBox.vertex, FastBox.setVertex, List.getD_eq_getElem?_getD, List.getElem?_set, hk]

theorem vertex_setVertex_ne (b : FastBox) (k k' : Nat) (v : Int) (hne : k ≠ k') :
    (b.setVertex k v).vertex k' = b.vertex k' := by
  simp [FastBox.vertex, FastBox.setVertex, List.getD_eq_getElem?_getD, List.getElem?_set, hne]

theorem length_setVertex (b : FastBox) (k : Nat) (v : Int) :
    (b.setVertex k v).vertices.length = b.vertices.length := by
  simp [FastBox.setVertex]

theorem setupVertex_hit (E : Env) (cells : List (Int × FastBox)) (x y z : Int)
    (box_center : Vertex) (acc : FastBox × List QueryPoint × Int) (k : Nat)
    (h : findQueryPoint E cells k x y z ≠ -1) :
    setupVertex E cells x y z box_center acc k =
      (acc.1.setVertex k (findQueryPoint E cells k x y z), acc.2.1, acc.2.2) := by
  unfold setupVertex
  simp only [h, ne_eq, not_false_eq_true, if_true]

theorem setupVertex_miss (E : Env) (cells : List (Int × FastBox)) (x y z : Int)
    (box_center : Vertex) (acc : FastBox × List QueryPoint × Int) (k : Nat)
    (h : findQueryPoint E cells k x y z = -1) :
    setupVertex E cells x y z box_center acc k =
      (acc.1.setVertex k acc.2.2,
       acc.2.1 ++ [QueryPoint.ofPosition (cornerPosition E box_center k)], acc.2.2 + 1) := by
  unfold setupVertex
  simp only [h, ne_eq, not_true_eq_false, if_false]
  rfl

theorem visitCoord_of_some (E : Env) (s : GridState) (c : Coord) (b : FastBox)
    (h : find s.cells (keyOf E c) = some b) : visitCoord E s c = s := by
  unfold visitCoord
  rw [h]

theorem visitCoord_of_none (E : Env) (s : GridState) (c : Coord)
    (h : find s.cells (keyOf E c) = none) :
    visitCoord E s c =
      ⟨(keyOf E c, (setupBox E s c).1) :: s.cells, (setupBox E s c).2.1, (setupBox E s c).2.2⟩ := by
  unfold visitCoord
  rw [h]
  simp only
  rw [assign_of_find_none _ h]

/-! ## Frame of the construction: nothing stored is changed -/

theorem sharedEntry_slot_lt (k i : Nat) (hk : k < 8) (hi : i < 7) :
    (sharedEntry k i).2.2.2.toNat < 8 := by
  have h : ∀ (k : Fin 8) (i : Fin 7), (sharedEntry k i).2.2.2.toNat < 8 := by decide
  exact h ⟨k, hk⟩ ⟨i, hi⟩

theorem setupVertex_extends (E : Env) (cells : List (Int × FastBox)) (x y z : Int)
    (box_center : Vertex) (acc : FastBox × List QueryPoint × Int) (k : Nat) :
    acc.2.1 <+: (setupVertex E cells x y z box_center acc k).2.1 := by
  by_cases h : findQueryPoint E cells k x y z = -1
  · rw [setupVertex_miss E cells x y z box_center acc k h]
    exact List.prefix_append _ _
  · rw [setupVertex_hit E cells x y z box_center acc k h]

theorem setupBox_extends (E : Env) (s : GridState) (c : Coord) :
    s.query_points <+: (setupBox E s c).2.1 := by
  exact foldl_range_invariant (setupVertex E s.cells c.1 c.2.1 c.2.2 (boxCenter E c))
    (fun _ acc => s.query_points <+: acc.2.1) 8 (FastBox.fresh, s.query_points, s.global_index)
    (List.prefix_refl _)
    (fun k _ acc hacc =>
      hacc.trans (setupVertex_extends E s.cells c.1 c.2.1 c.2.2 (boxCenter E c) acc k))

theorem visitCoord_frame (E : Env) (s : GridState) (c : Coord) :
    (∀ h b, find s.cells h = some b → find (visitCoord E s c).cells h = some b) ∧
    s.query_points <+: (visitCoord E s c).query_points := by
  cases hf : find s.cells (keyOf E c) with
  | some b =>
    rw [visitCoord_of_some E s c b hf]
    exact ⟨fun _ _ h => h, List.prefix_refl _⟩
  | none =>
    rw [visitCoord_of_none E s c hf]
    refine ⟨?_, setupBox_extends E s c⟩
    intro h b hb
    have hne : keyOf E c ≠ h := by
      intro heq
      rw [heq, hb] at hf
      exact Option.noConfusion hf
    simp only
    rw [find_cons_ne _ _ hne]
    exact hb

theorem visitAll_frame (E : Env) (s : GridState) (cs : List Coord) :
    (∀ h b, find s.cells h = some b → find (visitAll E s cs).cells h = some b) ∧
    s.query_points <+: (visitAll E s cs).query_points := by
  induction cs generalizing s with
  | nil => exact ⟨fun _ _ h => h, List.prefix_refl _⟩
  | cons c rest ih =>
    have h1 := visitCoord_frame E s c
    have h2 := ih (visitCoord E s c)
    have h3 : visitAll E s (c :: rest) = visitAll E (visitCoord E s c) rest := rfl
    rw [h3]
    exact ⟨fun h b hb => h2.1 h b (h1.1 h b hb), h1.2.trans h2.2⟩

/-- After a cell has been visited its key is in `cells`. -/
theorem visitCoord_present (E : Env) (s : GridState) (c : Coord) :
    ∃ b, find (visitCoord E s c).cells (keyOf E c) = some b := by
  cases hf : find s.cells (keyOf E c) with
  | some b =>
    rw [visitCoord_of_some E s c b hf]
    exact ⟨b, hf⟩
  | none =>
    rw [visitCoord_of_none E s c hf]
    exact ⟨_, find_cons_self _ _ _⟩

theorem visitAll_present (E : Env) (s : GridState) (cs : List Coord) (c : Coord)
    (hc : c ∈ cs) : ∃ b, find (visitAll E s cs).cells (keyOf E c) = some b := by
  induction cs generalizing s with
  | nil => simp at hc
  | cons d rest ih =>
    have h3 : visitAll E s (d :: rest) = visitAll E (visitCoord E s d) rest := rfl
    rw [h3]
    rcases List.mem_cons.mp hc with rfl | hc
    · obtain ⟨b, hb⟩ := visitCoord_present E s c
      exact ⟨b, (visitAll_frame E (visitCoord E s c) rest).1 _ b hb⟩
    · exact ih (visitCoord E s d) hc

/-- Visiting cells whose keys are all present changes nothing. -/
theorem visitAll_of_present (E : Env) (s : GridState) (cs : List Coord)
    (h : ∀ c ∈ cs, ∃ b, find s.cells (keyOf E c) = some b) : visitAll E s cs = s := by
  induction cs with
  | nil => rfl
  | cons d rest ih =>
    have h3 : visitAll E s (d :: rest) = visitAll E (visitCoord E s d) rest := rfl
    obtain ⟨b, hb⟩ := h d (List.mem_cons_self _ _)
    rw [h3, visitCoord_of_some E s d b hb]
    exact ih (fun c hc => h c (List.mem_cons_of_mem _ hc))

theorem cellCoords_append (E : Env) (ps qs : List Vertex) :
    cellCoords E (ps ++ qs) = cellCoords E ps ++ cellCoords E qs := by
  simp [cellCoords]

theorem cellsAround_subset_cellCoords (E : Env) (ps : List Vertex) (p : Vertex) (hp : p ∈ ps) :
    ∀ c ∈ cellsAround E (pointIndex E p), c ∈ cellCoords E ps := by
  intro c hc
  simp only [cellCoords, List.mem_flatMap]
  exact ⟨p, hp, hc⟩

/-- A point whose voxel coordinate was already visited leaves the grid as it is. -/
theorem createGridFrom_revisit (E : Env) (s : GridState) (ps : List Vertex) (p : Vertex)
    (h : ∃ p' ∈ ps, pointIndex E p' = pointIndex E p) :
    createGridFrom E s (ps ++ [p]) = createGridFrom E s ps := by
  obtain ⟨p', hp', hidx⟩ := h
  rw [createGridFrom_eq_visitAll, createGridFrom_eq_visitAll, cellCoords_append, visitAll_append]
  apply visitAll_of_present
  intro c hc
  have hc' : c ∈ cellsAround E (pointIndex E p') := by
    rw [hidx]
    simpa [cellCoords] using hc
  exact visitAll_present E s _ c (cellsAround_subset_cellCoords E ps p' hp' c hc')

/-! ## Slots are valid indices -/

theorem setupBox_valid (E : Env) (s : GridState) (c : Coord) (hs : SlotsValid s) :
    (setupBox E s c).2.2 = (setupBox E s c).2.1.length ∧
    (setupBox E s c).1.vertices.length = 8 ∧
    ∀ k < 8, 0 ≤ (setupBox E s c).1.vertex k ∧
      (setupBox E s c).1.vertex k < (setupBox E s c).2.1.length := by
  have key := foldl_range_invariant
    (setupVertex E s.cells c.1 c.2.1 c.2.2 (boxCenter E c))
    (fun k acc => (acc.2.2 = acc.2.1.length ∧ s.query_points.length ≤ acc.2.1.length) ∧
      acc.1.vertices.length = 8 ∧
      ∀ k' < k, 0 ≤ acc.1.vertex k' ∧ acc.1.vertex k' < acc.2.1.length)
    8 (FastBox.fresh, s.query_points, s.global_index) ?_ ?_
  · exact ⟨key.1.1, key.2.1, key.2.2⟩
  · refine ⟨⟨hs.1, le_refl _⟩, by simp [FastBox.fresh], ?_⟩
    intro k' hk'
    exact absurd hk' (Nat.not_lt_zero _)
  · rintro k hk acc ⟨⟨hgi, hlen⟩, hv8, hslots⟩
    by_cases h : findQueryPoint E s.cells k c.1 c.2.1 c.2.2 = -1
    · rw [setupVertex_miss E s.cells c.1 c.2.1 c.2.2 (boxCenter E c) acc k h]
      simp only [List.length_append, List.length_singleton, length_setVertex]
      refine ⟨⟨by rw [hgi]; push_cast; ring, by omega⟩, hv8, ?_⟩
      intro k' hk'
      by_cases hkk : k' = k
      · subst hkk
        rw [vertex_setVertex_self _ _ _ (by omega), hgi]
        constructor
        · exact Int.natCast_nonneg _
        · push_cast; omega
      · rw [vertex_setVertex_ne _ _ _ _ (Ne.symm hkk)]
        have := hslots k' (by omega)
        constructor
        · exact this.1
        · push_cast; omega
    · rw [setupVertex_hit E s.cells c.1 c.2.1 c.2.2 (boxCenter E c) acc k h]
      simp only [length_setVertex]
      refine ⟨⟨hgi, hlen⟩, hv8, ?_⟩
      intro k' hk'
      by_cases hkk : k' = k
      · subst hkk
        rw [vertex_setVertex_self _ _ _ (by omega)]
        obtain ⟨i, hi, b, hb, _, hres, _⟩ := findQueryPoint_ne_neg_one E s.cells k' c.1 c.2.1 c.2.2 h
        rw [hres]
        have hmem := find_eq_some_mem hb
        have hq := sharedEntry_slot_lt k' i hk hi
        have := (hs.2 _ hmem).2 _ hq
        simp only at this
        constructor
        · exact this.1
        · have h2 := this.2
          omega
      · rw [vertex_setVertex_ne _ _ _ _ (Ne.symm hkk)]
        exact hslots k' (by omega)

theorem visitCoord_valid (E : Env) (s : GridState) (c : Coord) (hs : SlotsValid s) :
    SlotsValid (visitCoord E s c) := by
  cases hf : find s.cells (keyOf E c) with
  | some b =>
    rw [visitCoord_of_some E s c b hf]
    exact hs
  | none =>
    rw [visitCoord_of_none E s c hf]
    obtain ⟨hgi, hlen, hslots⟩ := setupBox_valid E s c hs
    refine ⟨hgi, ?_⟩
    intro e he
    simp only at he ⊢
    rcases List.mem_cons.mp he with rfl | he
    · exact ⟨hlen, hslots⟩
    · refine ⟨(hs.2 e he).1, ?_⟩
      intro k hk
      have h1 := (hs.2 e he).2 k hk
      have h2 := (setupBox_extends E s c).length_le
      constructor
      · exact h1.1
      · have h3 := h1.2
        omega

theorem visitAll_valid (E : Env) (s : GridState) (cs : List Coord) (hs : SlotsValid s) :
    SlotsValid (visitAll E s cs) := by
  induction cs generalizing s with
  | nil => exact hs
  | cons c rest ih => exact ih (visitCoord E s c) (visitCoord_valid E s c hs)

theorem createGrid_valid (E : Env) (points : List Vertex) :
    SlotsValid (createGrid E points) := by
  unfold createGrid
  rw [createGridFrom_eq_visitAll]
  apply visitAll_valid
  exact ⟨rfl, fun e he => absurd he (List.not_mem_nil e)⟩

/-! ## The corner tables -/

theorem sharedEntry_corner (k i : Nat) (hk : k < 8) (hi : i < 7) (c : Coord) :
    corner (c.1 + (sharedEntry k i).1, c.2.1 + (sharedEntry k i).2.1,
        c.2.2 + (sharedEntry k i).2.2.1) (sharedEntry k i).2.2.2.toNat = corner c k := by
  have h : ∀ (k : Fin 8) (i : Fin 7),
      2 * (sharedEntry k i).1 + tableAt box_creation_table (sharedEntry k i).2.2.2.toNat 0
          = tableAt box_creation_table k 0 ∧
       2 * (sharedEntry k i).2.1 + tableAt box_creation_table (sharedEntry k i).2.2.2.toNat 1
          = tableAt box_creation_table k 1 ∧
       2 * (sharedEntry k i).2.2.1 + tableAt box_creation_table (sharedEntry k i).2.2.2.toNat 2
          = tableAt box_creation_table k 2 := by decide
  obtain ⟨h0, h1, h2⟩ := h ⟨k, hk⟩ ⟨i, hi⟩
  simp only at h0 h1 h2
  simp only [corner, Prod.mk.injEq]
  refine ⟨?_, ?_, ?_⟩ <;> omega

theorem box_creation_table_inj (k k' : Nat) (hk : k < 8) (hk' : k' < 8)
    (h0 : tableAt box_creation_table k 0 = tableAt box_creation_table k' 0)
    (h1 : tableAt box_creation_table k 1 = tableAt box_creation_table k' 1)
    (h2 : tableAt box_creation_table k 2 = tableAt box_creation_table k' 2) : k = k' := by
  have h : ∀ (k k' : Fin 8),
      tableAt box_creation_table k 0 = tableAt box_creation_table k' 0 →
      tableAt box_creation_table k 1 = tableAt box_creation_table k' 1 →
      tableAt box_creation_table k 2 = tableAt box_creation_table k' 2 → k = k' := by decide
  have := h ⟨k, hk⟩ ⟨k', hk'⟩ h0 h1 h2
  exact congrArg Fin.val this

theorem corner_index_inj (c : Coord) (k k' : Nat) (hk : k < 8) (hk' : k' < 8)
    (h : corner c k = corner c k') : k = k' := by
  simp only [corner, Prod.mk.injEq] at h
  exact box_creation_table_inj k k' hk hk' (by omega) (by omega) (by omega)

/-- Two cells that share a corner are table neighbours: if corner `k'` of `c'`
is corner `k` of `c` and `c' ≠ c`, row `k` has the quadruple `(c' - c, k')`. -/
theorem sharedEntry_complete (k k' : Nat) (hk : k < 8) (hk' : k' < 8) (c c' : Coord)
    (hne : c' ≠ c) (h : corner c' k' = corner c k) :
    ∃ i < 7, sharedEntry k i = (c'.1 - c.1, c'.2.1 - c.2.1, c'.2.2 - c.2.2, (k' : Int)) := by
  have htab : ∀ (k k' : Fin 8), k ≠ k' → ∃ i : Fin 7, sharedEntry k i =
      ((tableAt box_creation_table k 0 - tableAt box_creation_table k' 0) / 2,
       (tableAt box_creation_table k 1 - tableAt box_creation_table k' 1) / 2,
       (tableAt box_creation_table k 2 - tableAt box_creation_table k' 2) / 2,
       ((k' : Nat) : Int)) := by decide
  simp only [corner, Prod.mk.injEq] at h
  obtain ⟨h0, h1, h2⟩ := h
  have hkk : k ≠ k' := by
    rintro rfl
    apply hne
    have e0 : c'.1 = c.1 := by omega
    have e1 : c'.2.1 = c.2.1 := by omega
    have e2 : c'.2.2 = c.2.2 := by omega
    exact Prod.ext e0 (Prod.ext e1 e2)
  obtain ⟨i, hi⟩ := htab ⟨k, hk⟩ ⟨k', hk'⟩ (by simpa [Fin.ext_iff] using hkk)
  refine ⟨i, i.isLt, ?_⟩
  simp only at hi
  rw [hi]
  simp only [Prod.mk.injEq, and_true]
  refine ⟨?_, ?_, ?_⟩ <;> omega

theorem findQueryPointProbes_cons (E : Env) (cells : List (Int × FastBox)) (position : Nat)
    (x y z : Int) (i : Nat) (rest : List Nat) :
    findQueryPointProbes E cells position x y z (i :: rest) =
      (x + (sharedEntry position i).1, y + (sharedEntry position i).2.1,
          z + (sharedEntry position i).2.2.1) ::
        (match find cells (E.hashValue (x + (sharedEntry position i).1)
            (y + (sharedEntry position i).2.1) (z + (sharedEntry position i).2.2.1)) with
         | some b =>
           if b.vertex (sharedEntry position i).2.2.2.toNat ≠ -1 then []
           else findQueryPointProbes E cells position x y z rest
         | none => findQueryPointProbes E cells position x y z rest) := by
  rfl

theorem findQueryPointProbes_skip (E : Env) (cells : List (Int × FastBox)) (position : Nat)
    (x y z : Int) (i : Nat) (rest : List Nat)
    (h : ¬ Resolved E cells x y z (sharedEntry position i)) :
    findQueryPointProbes E cells position x y z (i :: rest) =
      (x + (sharedEntry position i).1, y + (sharedEntry position i).2.1,
          z + (sharedEntry position i).2.2.1) ::
        findQueryPointProbes E cells position x y z rest := by
  rw [findQueryPointProbes_cons]
  unfold Resolved at h
  split
  · rename_i b hb
    split
    · rename_i hv
      exact absurd ⟨b, hb, hv⟩ h
    · rfl
  · rfl

/-- The candidate at which `findQueryPoint` stops has been probed. -/
theorem mem_findQueryPointProbes (E : Env) (cells : List (Int × FastBox)) (position : Nat)
    (x y z : Int) (l₁ : List Nat) (i : Nat) (l₂ : List Nat)
    (h : ∀ j ∈ l₁, ¬ Resolved E cells x y z (sharedEntry position j)) :
    (x + (sharedEntry position i).1, y + (sharedEntry position i).2.1,
        z + (sharedEntry position i).2.2.1) ∈
      findQueryPointProbes E cells position x y z (l₁ ++ i :: l₂) := by
  induction l₁ with
  | nil =>
    rw [List.nil_append, findQueryPointProbes_cons]
    exact List.mem_cons_self _ _
  | cons j rest ih =>
    rw [List.cons_append,
      findQueryPointProbes_skip _ _ _ _ _ _ _ _ (h j (List.mem_cons_self _ _))]
    exact List.mem_cons_of_mem _ (ih (fun m hm => h m (List.mem_cons_of_mem _ hm)))

theorem mem_setupBoxProbes (E : Env) (cells : List (Int × FastBox)) (c : Coord) (k i : Nat)
    (hk : k < 8) (hi : i < 7)
    (hfirst : ∀ j < i, ¬ Resolved E cells c.1 c.2.1 c.2.2 (sharedEntry k j)) :
    (c.1 + (sharedEntry k i).1, c.2.1 + (sharedEntry k i).2.1,
      c.2.2 + (sharedEntry k i).2.2.1) ∈ setupBoxProbes E cells c := by
  simp only [setupBoxProbes, List.mem_flatMap, List.mem_range]
  refine ⟨k, hk, ?_⟩
  rw [range_split 7 i hi]
  exact mem_findQueryPointProbes E cells k c.1 c.2.1 c.2.2 _ i _
    (fun j hj => hfirst j (List.mem_range.mp hj))

theorem visitAllProbes_append (E : Env) (s : GridState) (cs ds : List Coord) :
    visitAllProbes E s (cs ++ ds) =
      visitAllProbes E s cs ++ visitAllProbes E (visitAll E s cs) ds := by
  induction cs generalizing s with
  | nil => rfl
  | cons c rest ih =>
    have h1 : visitAllProbes E s (c :: rest ++ ds) =
        visitCoordProbes E s c ++ visitAllProbes E (visitCoord E s c) (rest ++ ds) := rfl
    have h2 : visitAllProbes E s (c :: rest) =
        visitCoordProbes E s c ++ visitAllProbes E (visitCoord E s c) rest := rfl
    have h3 : visitAll E s (c :: rest) = visitAll E (visitCoord E s c) rest := rfl
    rw [h1, h2, h3, ih, List.append_assoc]

theorem getElem?_of_extends {α : Type} {K K' : List α} (h : K <+: K') {n : Nat} {x : α}
    (hx : K[n]? = some x) : K'[n]? = some x := by
  obtain ⟨t, rfl⟩ := h
  have hn : n < K.length := by
    by_contra hcon
    rw [List.getElem?_eq_none (by omega)] at hx
    exact Option.noConfusion hx
  rw [List.getElem?_append_left hn]
  exact hx

/-! ## The invariant of construction under an injective key function -/

theorem mem_of_key_mem {E : Env} {T : List Coord} (hinj : HashInjOn E T) {s : GridState}
    {C K : List Coord} (hI : GridInv E s C K) (hCT : ∀ c ∈ C, c ∈ T) {c : Coord} (hc : c ∈ T)
    {b : FastBox} (hb : find s.cells (keyOf E c) = some b) : c ∈ C := by
  have h1 : keyOf E c ∈ s.cells.map Prod.fst := by
    rw [← find_isSome_iff, hb]; rfl
  rw [hI.keys] at h1
  obtain ⟨c', hc', hkey⟩ := List.mem_map.mp h1
  have := hinj c' (hCT c' hc') c hc hkey
  rw [← this]
  exact hc'

theorem not_mem_of_find_none {E : Env} {s : GridState} {C K : List Coord}
    (hI : GridInv E s C K) {c : Coord} (hf : find s.cells (keyOf E c) = none) : c ∉ C := by
  intro hc
  rw [find_eq_none_iff, hI.keys] at hf
  exact hf (List.mem_map.mpr ⟨c, hc, rfl⟩)

/-- A hit of `findQueryPoint` is the index of the requested corner. -/
theorem findQueryPoint_hit_corner {E : Env} {T : List Coord} (hinj : HashInjOn E T)
    {s : GridState} {C K : List Coord} (hI : GridInv E s C K) (hCT : ∀ c ∈ C, c ∈ T)
    (c : Coord) (hprobe : ∀ n ∈ setupBoxProbes E s.cells c, n ∈ T) (k : Nat) (hk : k < 8)
    (h : findQueryPoint E s.cells k c.1 c.2.1 c.2.2 ≠ -1) :
    ∃ n : Nat, findQueryPoint E s.cells k c.1 c.2.1 c.2.2 = (n : Int) ∧
      K[n]? = some (corner c k) := by
  obtain ⟨i, hi, b, hb, _, hres, hfirst⟩ :=
    findQueryPoint_ne_neg_one E s.cells k c.1 c.2.1 c.2.2 h
  have hmem := mem_of_key_mem hinj hI hCT
    (hprobe _ (mem_setupBoxProbes E s.cells c k i hk hi hfirst)) hb
  obtain ⟨b', hb', _, hslots⟩ := hI.slots _ hmem
  have hbb : b' = b := by
    have : find s.cells (keyOf E (c.1 + (sharedEntry k i).1, c.2.1 + (sharedEntry k i).2.1,
      c.2.2 + (sharedEntry k i).2.2.1)) = some b := hb
    rw [hb'] at this
    exact Option.some.inj this
  subst hbb
  obtain ⟨n, hn, hK⟩ := hslots _ (sharedEntry_slot_lt k i hk hi)
  refine ⟨n, by rw [hres, hn], ?_⟩
  rw [hK, sharedEntry_corner k i hk hi c]

/-- When `findQueryPoint` finds nothing, no stored cell has the requested corner. -/
theorem findQueryPoint_miss_corner {E : Env} {s : GridState} {C K : List Coord}
    (hI : GridInv E s C K) (c : Coord) (hnew : c ∉ C) (k : Nat) (hk : k < 8)
    (h : findQueryPoint E s.cells k c.1 c.2.1 c.2.2 = -1) : corner c k ∉ K := by
  intro hin
  obtain ⟨c', hc', k', hk', hcor⟩ := hI.owned _ hin
  have hne : c' ≠ c := fun heq => hnew (heq ▸ hc')
  obtain ⟨i, hi, hentry⟩ := sharedEntry_complete k k' hk hk' c c' hne hcor.symm
  obtain ⟨b, hb, _, hslots⟩ := hI.slots _ hc'
  obtain ⟨n, hn, _⟩ := hslots k' hk'
  apply (findQueryPoint_eq_neg_one_iff E s.cells k c.1 c.2.1 c.2.2).mp h i hi
  refine ⟨b, ?_, ?_⟩
  · rw [hentry]
    simp only [add_sub_cancel]
    exact hb
  · rw [hentry]
    simp only [Int.toNat_ofNat]
    rw [hn]
    omega

/-- The loop `for k` of `createGrid` for a new cell: every slot receives the
index of its corner, and each query point added is a corner not seen before. -/
theorem setupBox_inv {E : Env} {T : List Coord} (hinj : HashInjOn E T)
    {s : GridState} {C K : List Coord} (hI : GridInv E s C K) (hCT : ∀ c ∈ C, c ∈ T)
    (c : Coord) (hprobe : ∀ n ∈ setupBoxProbes E s.cells c, n ∈ T) (hnew : c ∉ C) :
    ∃ K', K <+: K' ∧ K'.Nodup ∧ K'.length = (setupBox E s c).2.1.length ∧
      (setupBox E s c).2.2 = (setupBox E s c).2.1.length ∧
      (setupBox E s c).1.vertices.length = 8 ∧
      (∀ k < 8, ∃ n : Nat, (setupBox E s c).1.vertex k = (n : Int) ∧
        K'[n]? = some (corner c k)) ∧
      (∀ p ∈ K', p ∈ K ∨ ∃ k < 8, p = corner c k) := by
  refine foldl_range_invariant
    (setupVertex E s.cells c.1 c.2.1 c.2.2 (boxCenter E c))
    (fun k acc => ∃ K', K <+: K' ∧ K'.Nodup ∧ K'.length = acc.2.1.length ∧
      acc.2.2 = acc.2.1.length ∧ acc.1.vertices.length = 8 ∧
      (∀ k' < k, ∃ n : Nat, acc.1.vertex k' = (n : Int) ∧ K'[n]? = some (corner c k')) ∧
      (∀ p ∈ K', p ∈ K ∨ ∃ k' < k, p = corner c k'))
    8 (FastBox.fresh, s.query_points, s.global_index) ?_ ?_
  · refine ⟨K, List.prefix_refl _, hI.nodupK, hI.lenK, hI.counter, by simp [FastBox.fresh],
      ?_, fun p hp => Or.inl hp⟩
    intro k' hk'
    exact absurd hk' (Nat.not_lt_zero _)
  · rintro k hk acc ⟨K', hpre, hnd, hlen, hgi, hv8, hslots, hown⟩
    by_cases h : findQueryPoint E s.cells k c.1 c.2.1 c.2.2 = -1
    · rw [setupVertex_miss E s.cells c.1 c.2.1 c.2.2 (boxCenter E c) acc k h]
      have hfresh : corner c k ∉ K' := by
        intro hin
        rcases hown _ hin with hK | ⟨k', hk', hcor⟩
        · exact findQueryPoint_miss_corner hI c hnew k hk h hK
        · have := corner_index_inj c k k' hk (by omega) hcor
          omega
      refine ⟨K' ++ [corner c k], hpre.trans (List.prefix_append _ _), ?_, ?_, ?_, ?_, ?_, ?_⟩
      · rw [List.nodup_append]
        refine ⟨hnd, List.nodup_singleton _, ?_⟩
        intro a ha hb
        rw [List.mem_singleton] at hb
        exact hfresh (hb ▸ ha)
      · simp [hlen]
      · simp only [List.length_append, List.length_singleton]
        rw [hgi]; push_cast; ring
      · simpa [length_setVertex] using hv8
      · intro k' hk'
        by_cases hkk : k' = k
        · subst hkk
          refine ⟨K'.length, ?_, ?_⟩
          · rw [vertex_setVertex_self _ _ _ (by omega), hgi, hlen]
          · simp
        · obtain ⟨n, hn, hKn⟩ := hslots k' (by omega)
          refine ⟨n, ?_, getElem?_of_extends (List.prefix_append _ _) hKn⟩
          rw [vertex_setVertex_ne _ _ _ _ (Ne.symm hkk)]
          exact hn
      · intro p hp
        rcases List.mem_append.mp hp with hp | hp
        · rcases hown p hp with hK | ⟨k', hk', hcor⟩
          · exact Or.inl hK
          · exact Or.inr ⟨k', by omega, hcor⟩
        · rw [List.mem_singleton] at hp
          exact Or.inr ⟨k, by omega, hp⟩
    · rw [setupVertex_hit E s.cells c.1 c.2.1 c.2.2 (boxCenter E c) acc k h]
      obtain ⟨n, hn, hKn⟩ := findQueryPoint_hit_corner hinj hI hCT c hprobe k hk h
      refine ⟨K', hpre, hnd, hlen, hgi, by simpa [length_setVertex] using hv8, ?_, ?_⟩
      · intro k' hk'
        by_cases hkk : k' = k
        · subst hkk
          refine ⟨n, ?_, getElem?_of_extends hpre hKn⟩
          rw [vertex_setVertex_self _ _ _ (by omega)]
          exact hn
        · obtain ⟨m, hm, hKm⟩ := hslots k' (by omega)
          refine ⟨m, ?_, hKm⟩
          rw [vertex_setVertex_ne _ _ _ _ (Ne.symm hkk)]
          exact hm
      · intro p hp
        rcases hown p hp with hK | ⟨k', hk', hcor⟩
        · exact Or.inl hK
        · exact Or.inr ⟨k', by omega, hcor⟩

/-- One visited cell keeps the invariant; the created cells become
`List.insert c C`. -/
theorem visitCoord_inv {E : Env} {T : List Coord} (hinj : HashInjOn E T)
    {s : GridState} {C K : List Coord} (hI : GridInv E s C K) (hCT : ∀ c ∈ C, c ∈ T)
    (c : Coord) (hc : c ∈ T) (hprobe : ∀ n ∈ visitCoordProbes E s c, n ∈ T) :
    ∃ K', K <+: K' ∧ GridInv E (visitCoord E s c) (List.insert c C) K' := by
  cases hf : find s.cells (keyOf E c) with
  | some b =>
    have hmem := mem_of_key_mem hinj hI hCT hc hf
    rw [visitCoord_of_some E s c b hf, List.insert_of_mem hmem]
    exact ⟨K, List.prefix_refl _, hI⟩
  | none =>
    have hnew := not_mem_of_find_none hI hf
    have hprobe' : ∀ n ∈ setupBoxProbes E s.cells c, n ∈ T := by
      intro n hn
      apply hprobe
      unfold visitCoordProbes
      rw [hf]
      exact hn
    obtain ⟨K', hpre, hnd, hlen, hgi, hv8, hslots, hown⟩ :=
      setupBox_inv hinj hI hCT c hprobe' hnew
    rw [visitCoord_of_none E s c hf, List.insert_of_not_mem hnew]
    refine ⟨K', hpre, ?_⟩
    constructor
    · simp only [List.map_cons, hI.keys]
    · exact List.nodup_cons.mpr ⟨hnew, hI.nodupC⟩
    · intro c' hc'
      simp only
      rcases List.mem_cons.mp hc' with rfl | hc'
      · exact ⟨_, find_cons_self _ _ _, hv8, hslots⟩
      · obtain ⟨b, hb, hb8, hbs⟩ := hI.slots c' hc'
        have hne : keyOf E c ≠ keyOf E c' := by
          intro heq
          rw [heq, hb] at hf
          exact Option.noConfusion hf
        refine ⟨b, by rw [find_cons_ne _ _ hne]; exact hb, hb8, ?_⟩
        intro k hk
        obtain ⟨n, hn, hKn⟩ := hbs k hk
        exact ⟨n, hn, getElem?_of_extends hpre hKn⟩
    · exact hnd
    · exact hlen
    · exact hgi
    · intro p hp
      rcases hown p hp with hK | ⟨k, hk, hcor⟩
      · obtain ⟨c', hc', k, hk, hcor⟩ := hI.owned p hK
        exact ⟨c', List.mem_cons_of_mem _ hc', k, hk, hcor⟩
      · exact ⟨c, List.mem_cons_self _ _, k, hk, hcor⟩

theorem visitAll_inv {E : Env} {T : List Coord} (hinj : HashInjOn E T) (cs : List Coord)
    {s : GridState} {C K : List Coord} (hI : GridInv E s C K) (hCT : ∀ c ∈ C, c ∈ T)
    (hcs : ∀ c ∈ cs, c ∈ T) (hprobe : ∀ n ∈ visitAllProbes E s cs, n ∈ T) :
    ∃ C' K', GridInv E (visitAll E s cs) C' K' ∧ (∀ c, c ∈ C' ↔ c ∈ C ∨ c ∈ cs) := by
  induction cs generalizing s C K with
  | nil => exact ⟨C, K, hI, fun c => by simp⟩
  | cons d rest ih =>
    have hd := hcs d (List.mem_cons_self _ _)
    have hsplit : visitAllProbes E s (d :: rest) =
        visitCoordProbes E s d ++ visitAllProbes E (visitCoord E s d) rest := rfl
    rw [hsplit] at hprobe
    obtain ⟨K₁, _, hI₁⟩ := visitCoord_inv hinj hI hCT d hd
      (fun n hn => hprobe n (List.mem_append_left _ hn))
    have hCT₁ : ∀ c ∈ List.insert d C, c ∈ T := by
      intro c hc
      rcases List.mem_insert_iff.mp hc with rfl | hc
      · exact hd
      · exact hCT c hc
    obtain ⟨C', K', hI', hC'⟩ :=
      ih hI₁ hCT₁ (fun c hc => hcs c (List.mem_cons_of_mem _ hc))
        (fun n hn => hprobe n (List.mem_append_right _ hn))
    refine ⟨C', K', hI', ?_⟩
    intro c
    rw [hC' c, List.mem_insert_iff, List.mem_cons]
    tauto

theorem gridInv_init (E : Env) : GridInv E ⟨[], [], 0⟩ [] [] := by
  constructor <;> simp

/-- The invariant holds after `createGrid`, for the cells visited. -/
theorem createGrid_inv (E : Env) (points : List Vertex)
    (hinj : HashInjOn E (touchedCoords E points)) :
    ∃ C K, GridInv E (createGrid E points) C K ∧ ∀ c, c ∈ C ↔ c ∈ cellCoords E points := by
  unfold createGrid
  rw [createGridFrom_eq_visitAll]
  obtain ⟨C, K, hI, hC⟩ := visitAll_inv hinj (cellCoords E points) (gridInv_init E) (by simp)
    (fun c hc => List.mem_append_left _ hc) (fun n hn => List.mem_append_right _ hn)
  exact ⟨C, K, hI, fun c => by simpa using hC c⟩

theorem mem_cornersOf (cs : List Coord) (p : Coord) :
    p ∈ cornersOf cs ↔ ∃ c ∈ cs, ∃ k < 8, p = corner c k := by
  simp only [cornersOf, List.mem_flatMap, List.mem_map, List.mem_range]
  constructor
  · rintro ⟨c, hc, k, hk, rfl⟩
    exact ⟨c, hc, k, hk, rfl⟩
  · rintro ⟨c, hc, k, hk, rfl⟩
    exact ⟨c, hc, k, hk, rfl⟩

/-- Under the invariant the query points are the distinct corners of the cells. -/
theorem gridInv_count {E : Env} {s : GridState} {C K : List Coord} (hI : GridInv E s C K)
    (cs : List Coord) (hC : ∀ c, c ∈ C ↔ c ∈ cs) :
    s.query_points.length = (cornersOf cs).toFinset.card ∧
    s.cells.length = cs.toFinset.card := by
  constructor
  · rw [← hI.lenK, ← List.toFinset_card_of_nodup hI.nodupK]
    congr 1
    ext p
    simp only [List.mem_toFinset, mem_cornersOf]
    constructor
    · intro hp
      obtain ⟨c, hc, k, hk, hcor⟩ := hI.owned p hp
      exact ⟨c, (hC c).mp hc, k, hk, hcor⟩
    · rintro ⟨c, hc, k, hk, rfl⟩
      obtain ⟨b, _, _, hslots⟩ := hI.slots c ((hC c).mpr hc)
      obtain ⟨n, _, hKn⟩ := hslots k hk
      exact List.getElem?_mem hKn
  · have h1 : s.cells.length = C.length := by
      have := congrArg List.length hI.keys
      simpa using this
    rw [h1, ← List.toFinset_card_of_nodup hI.nodupC]
    congr 1
    ext c
    simp only [List.mem_toFinset]
    exact hC c

/-! ## Counting cells and corners -/

theorem cellsAround_eq_map_shift (E : Env) (idx : Coord) :
    cellsAround E idx = ((List.range 8).map (createOffset E)).map (shift idx) := by
  simp only [cellsAround, List.map_map]
  rfl

theorem blockCells_shift (t o : Coord) :
    (blockCells o).map (shift t) = blockCells (shift t o) := by
  simp only [blockCells, shift, List.map_cons, List.map_nil, add_assoc]

theorem corner_shift (t c : Coord) (k : Nat) :
    corner (shift t c) k = shift (2 * t.1, 2 * t.2.1, 2 * t.2.2) (corner c k) := by
  simp only [corner, shift, Prod.mk.injEq]
  refine ⟨?_, ?_, ?_⟩ <;> ring

theorem cornersOf_map_shift (t : Coord) (cs : List Coord) :
    cornersOf (cs.map (shift t)) = (cornersOf cs).map (shift (2 * t.1, 2 * t.2.1, 2 * t.2.2)) := by
  induction cs with
  | nil => rfl
  | cons c rest ih =>
    have h1 : ∀ (d : Coord) (ds : List Coord),
        cornersOf (d :: ds) = (List.range 8).map (corner d) ++ cornersOf ds := by
      intro d ds
      simp [cornersOf]
    rw [List.map_cons, h1, h1, ih, List.map_append, List.map_map]
    congr 1
    apply List.map_congr_left
    intro k _
    exact corner_shift t c k

theorem shift_injective (t : Coord) : Function.Injective (shift t) := by
  intro a b h
  simp only [shift, Prod.mk.injEq] at h
  obtain ⟨h0, h1, h2⟩ := h
  exact Prod.ext (by omega) (Prod.ext (by omega) (by omega))

theorem card_toFinset_map_shift (t : Coord) (cs : List Coord) :
    (cs.map (shift t)).toFinset.card = cs.toFinset.card := by
  have h : (cs.map (shift t)).toFinset = cs.toFinset.image (shift t) := by
    ext p
    simp only [List.mem_toFinset, List.mem_map, Finset.mem_image]
  rw [h, Finset.card_image_of_injective _ (shift_injective t)]

theorem blockCells_eq_shift (o : Coord) : blockCells o = (blockCells (0, 0, 0)).map (shift o) := by
  rw [blockCells_shift]
  simp [shift]

/-- A 2x2x2 block of cells has 8 cells and 27 distinct corners. -/
theorem blockCells_count (o : Coord) :
    (blockCells o).toFinset.card = 8 ∧ (cornersOf (blockCells o)).toFinset.card = 27 := by
  rw [blockCells_eq_shift o, cornersOf_map_shift, card_toFinset_map_shift,
    card_toFinset_map_shift]
  constructor <;> decide!

theorem toFinset_cornersOf_congr {cs ds : List Coord} (h : ∀ c, c ∈ cs ↔ c ∈ ds) :
    (cornersOf cs).toFinset = (cornersOf ds).toFinset := by
  ext p
  simp only [List.mem_toFinset, mem_cornersOf]
  constructor
  · rintro ⟨c, hc, rest⟩
    exact ⟨c, (h c).mp hc, rest⟩
  · rintro ⟨c, hc, rest⟩
    exact ⟨c, (h c).mpr hc, rest⟩

/-- Cells and query points after `createGrid` when the key is injective on the
coordinates created or probed. -/
theorem createGrid_count (E : Env) (points : List Vertex)
    (hinj : HashInjOn E (touchedCoords E points)) :
    (createGrid E points).query_points.length = (cornersOf (cellCoords E points)).toFinset.card ∧
    (createGrid E points).cells.length = (cellCoords E points).toFinset.card := by
  obtain ⟨C, K, hI, hC⟩ := createGrid_inv E points hinj
  exact gridInv_count hI _ hC

theorem mem_cellCoords_perm (E : Env) {ps qs : List Vertex} (h : ps.Perm qs) (c : Coord) :
    c ∈ cellCoords E ps ↔ c ∈ cellCoords E qs := by
  simp only [cellCoords, List.mem_flatMap, h.mem_iff]

/-- A single point with the create offsets of a 2x2x2 block. -/
theorem createGrid_block_count (E : Env) (p : Vertex) (o : Coord)
    (hHG : ((List.range 8).map (createOffset E)).Perm (blockCells o))
    (hinj : HashInjOn E (touchedCoords E [p])) :
    (createGrid E [p]).cells.length = 8 ∧ (createGrid E [p]).query_points.length = 27 := by
  obtain ⟨hq, hc⟩ := createGrid_count E [p] hinj
  have hcells : cellCoords E [p] = cellsAround E (pointIndex E p) := by
    simp [cellCoords]
  have hperm : (cellsAround E (pointIndex E p)).Perm (blockCells (shift (pointIndex E p) o)) := by
    rw [cellsAround_eq_map_shift, ← blockCells_shift]
    exact hHG.map _
  have hcount := blockCells_count (shift (pointIndex E p) o)
  rw [hcells] at hq hc
  constructor
  · rw [hc, List.toFinset_eq_of_perm _ _ hperm]
    exact hcount.1
  · rw [hq, toFinset_cornersOf_congr (fun c => hperm.mem_iff)]
    exact hcount.2

/-! ## The key packing -/

theorem wrap32_of_range (n : Int) (h0 : -2147483648 ≤ n) (h1 : n < 2147483648) :
    wrap32 n = n := by
  unfold wrap32
  omega

/-- The packing `hashValue ⟨9, 81, ..⟩` of `unitGrid` is injective on
coordinates between -4 and 4. -/
theorem unitGrid_injOn (cs : List Coord)
    (h : ∀ a ∈ cs, (-4 ≤ a.1 ∧ a.1 ≤ 4) ∧ (-4 ≤ a.2.1 ∧ a.2.1 ≤ 4) ∧ (-4 ≤ a.2.2 ∧ a.2.2 ≤ 4)) :
    HashInjOn unitGrid cs := by
  intro a ha b hb hkey
  obtain ⟨⟨a0, a0'⟩, ⟨a1, a1'⟩, a2, a2'⟩ := h a ha
  obtain ⟨⟨b0, b0'⟩, ⟨b1, b1'⟩, b2, b2'⟩ := h b hb
  simp only [keyOf, unitGrid, hashValue] at hkey
  rw [wrap32_of_range (a.1 * 81) (by omega) (by omega),
    wrap32_of_range (a.2.1 * 9) (by omega) (by omega),
    wrap32_of_range (b.1 * 81) (by omega) (by omega),
    wrap32_of_range (b.2.1 * 9) (by omega) (by omega),
    wrap32_of_range (a.1 * 81 + a.2.1 * 9) (by omega) (by omega),
    wrap32_of_range (b.1 * 81 + b.2.1 * 9) (by omega) (by omega),
    wrap32_of_range (a.1 * 81 + a.2.1 * 9 + a.2.2) (by omega) (by omega),
    wrap32_of_range (b.1 * 81 + b.2.1 * 9 + b.2.2) (by omega) (by omega)] at hkey
  exact Prod.ext (by omega) (Prod.ext (by omega) (by omega))

theorem unitGrid_injOn_origin : HashInjOn unitGrid (touchedCoords unitGrid [⟨0, 0, 0⟩]) :=
  unitGrid_injOn _ (by decide!)

theorem calcIndices_max_index (x y z vs : ℚ) (hvs : 0 < vs) :
    (calcIndices x y z vs).max_index = ⌈max (max x y) z / vs⌉ + 5 := by
  have h : (max (max x y) z + 5 * vs) / vs = max (max x y) z / vs + ((5 : Int) : ℚ) := by
    field_simp
  simp only [calcIndices]
  rw [h, Int.ceil_add_int]

/-- The per-axis counts stay below `max_index`. -/
theorem calcIndices_bounds (x y z vs : ℚ) (hx : 0 ≤ x) (hvs : 0 < vs) :
    0 < (calcIndices x y z vs).max_index_x ∧
    (calcIndices x y z vs).max_index_x + 4 ≤ (calcIndices x y z vs).max_index ∧
    (calcIndices x y z vs).max_index_y + 3 ≤ (calcIndices x y z vs).max_index ∧
    (calcIndices x y z vs).max_index_z + 2 ≤ (calcIndices x y z vs).max_index := by
  rw [calcIndices_max_index x y z vs hvs]
  have hmx : ⌈x / vs⌉ ≤ ⌈max (max x y) z / vs⌉ :=
    Int.ceil_le_ceil (div_le_div_of_nonneg_right (le_max_of_le_left (le_max_left x y)) hvs.le)
  have hmy : ⌈y / vs⌉ ≤ ⌈max (max x y) z / vs⌉ :=
    Int.ceil_le_ceil (div_le_div_of_nonneg_right (le_max_of_le_left (le_max_right x y)) hvs.le)
  have hmz : ⌈z / vs⌉ ≤ ⌈max (max x y) z / vs⌉ :=
    Int.ceil_le_ceil (div_le_div_of_nonneg_right (le_max_right _ z) hvs.le)
  have hx0 : 0 ≤ ⌈x / vs⌉ := Int.ceil_nonneg (div_nonneg hx hvs.le)
  simp only [calcIndices]
  refine ⟨?_, ?_, ?_, ?_⟩ <;> omega

/-- Uniqueness of the digits of a packing in base `M`. -/
theorem pack_inj (M i j k i' j' k' : Int) (hj : 0 ≤ j ∧ j < M) (hk : 0 ≤ k ∧ k < M)
    (hj' : 0 ≤ j' ∧ j' < M) (hk' : 0 ≤ k' ∧ k' < M)
    (h : i * (M * M) + j * M + k = i' * (M * M) + j' * M + k') :
    (i, j, k) = (i', j', k') := by
  have hM : 0 < M := by omega
  have step : ∀ a b a' b' : Int, (0 ≤ b ∧ b < M) → (0 ≤ b' ∧ b' < M) →
      a * M + b = a' * M + b' → a = a' ∧ b = b' := by
    intro a b a' b' hb hb' hab
    have h1 : (a * M + b) % M = b := by
      rw [add_comm, Int.add_mul_emod_self, Int.emod_eq_of_lt hb.1 hb.2]
    have h2 : (a' * M + b') % M = b' := by
      rw [add_comm, Int.add_mul_emod_self, Int.emod_eq_of_lt hb'.1 hb'.2]
    have hbb : b = b' := by rw [← h1, ← h2, hab]
    refine ⟨?_, hbb⟩
    subst hbb
    have : a * M = a' * M := by omega
    exact mul_right_cancel₀ (ne_of_gt hM) this
  have h' : (i * M + j) * M + k = (i' * M + j') * M + k' := by
    have e1 : (i * M + j) * M + k = i * (M * M) + j * M + k := by ring
    have e2 : (i' * M + j') * M + k' = i' * (M * M) + j' * M + k' := by ring
    rw [e1, e2, h]
  obtain ⟨h1, hkk⟩ := step _ _ _ _ hk hk' h'
  obtain ⟨hii, hjj⟩ := step _ _ _ _ hj hj' h1
  rw [hii, hjj, hkk]

/-- Without overflow the key is the packing itself. -/
theorem hashValue_eq_pack (I : GridIndices) (M X : Int) (hM : I.max_index = M)
    (hsq : I.max_index_square = M * M) (hsmall : X * M * M < 2 ^ 31)
    (i j k : Int) (hi : 0 ≤ i ∧ i < X) (hj : 0 ≤ j ∧ j < M) (hk : 0 ≤ k ∧ k < M) :
    hashValue I i j k = i * (M * M) + j * M + k := by
  have hM0 : 0 < M := by omega
  have hMM : 0 < M * M := mul_pos hM0 hM0
  have h1 : i * (M * M) ≤ (X - 1) * (M * M) :=
    mul_le_mul_of_nonneg_right (by omega) hMM.le
  have h2 : j * M ≤ (M - 1) * M := mul_le_mul_of_nonneg_right (by omega) hM0.le
  have h3 : 0 ≤ i * (M * M) := mul_nonneg hi.1 hMM.le
  have h4 : 0 ≤ j * M := mul_nonneg hj.1 hM0.le
  have e1 : (X - 1) * (M * M) = X * M * M - M * M := by ring
  have e2 : (M - 1) * M = M * M - M := by ring
  have hpow : (2 : Int) ^ 31 = 2147483648 := by norm_num
  rw [e1] at h1
  rw [e2] at h2
  rw [hpow] at hsmall
  unfold hashValue
  rw [hM, hsq, wrap32_of_range (i * (M * M)) (by omega) (by omega),
    wrap32_of_range (j * M) (by omega) (by omega),
    wrap32_of_range (i * (M * M) + j * M) (by omega) (by omega),
    wrap32_of_range (i * (M * M) + j * M + k) (by omega) (by omega)]

/-- The keys are injective when the packing does not overflow. -/
theorem keysInjective_of_small (x y z vs : ℚ) (hx : 0 ≤ x) (hvs : 0 < vs)
    (hsmall : (calcIndices x y z vs).max_index_x * (calcIndices x y z vs).max_index *
      (calcIndices x y z vs).max_index < 2 ^ 31) :
    KeysInjective (calcIndices x y z vs) := by
  obtain ⟨hX, hbx, hby, hbz⟩ := calcIndices_bounds x y z vs hx hvs
  have hM0 : 0 < (calcIndices x y z vs).max_index := by omega
  have hMM : (calcIndices x y z vs).max_index * (calcIndices x y z vs).max_index < 2 ^ 31 := by
    have : 1 * ((calcIndices x y z vs).max_index * (calcIndices x y z vs).max_index) ≤
        (calcIndices x y z vs).max_index_x *
          ((calcIndices x y z vs).max_index * (calcIndices x y z vs).max_index) :=
      mul_le_mul_of_nonneg_right (by omega) (mul_pos hM0 hM0).le
    rw [one_mul, ← mul_assoc] at this
    exact lt_of_le_of_lt this hsmall
  have hsq : (calcIndices x y z vs).max_index_square =
      (calcIndices x y z vs).max_index * (calcIndices x y z vs).max_index := by
    have hpow : (2 : Int) ^ 31 = 2147483648 := by norm_num
    rw [hpow] at hMM
    have h0 := (mul_pos hM0 hM0).le
    show wrap32 ((calcIndices x y z vs).max_index * (calcIndices x y z vs).max_index) = _
    exact wrap32_of_range _ (by omega) (by omega)
  intro i j k i' j' k' hi hj hk hi' hj' hk' hkey
  rw [hashValue_eq_pack _ _ _ rfl hsq hsmall i j k hi (by omega) (by omega),
    hashValue_eq_pack _ _ _ rfl hsq hsmall i' j' k' hi' (by omega) (by omega)] at hkey
  exact pack_inj _ i j k i' j' k' (by omega) (by omega) (by omega) (by omega) hkey

theorem hashInjOn_of_subset {E : Env} {cs ds : List Coord} (h : ∀ c ∈ cs, c ∈ ds)
    (hinj : HashInjOn E ds) : HashInjOn E cs :=
  fun a ha b hb hkey => hinj a (h a ha) b (h b hb) hkey

theorem touchedCoords_subset_append (E : Env) (ps qs : List Vertex) :
    ∀ c ∈ touchedCoords E ps, c ∈ touchedCoords E (ps ++ qs) := by
  intro c hc
  simp only [touchedCoords, probedCoords, cellCoords_append, visitAllProbes_append,
    List.mem_append] at hc ⊢
  rcases hc with hc | hc
  · exact Or.inl (Or.inl hc)
  · exact Or.inr (Or.inl hc)

theorem unitGrid_createOffsets :
    ((List.range 8).map (createOffset unitGrid)).Perm (blockCells (0, 0, 0)) := by
  have h : (List.range 8).map (createOffset unitGrid) = blockCells (0, 0, 0) := by decide
  rw [h]

/-! ## The keys of the cells -/

theorem visitCoord_keys (E : Env) (s : GridState) (c : Coord) (h : Int) :
    h ∈ (visitCoord E s c).cells.map Prod.fst ↔ h ∈ s.cells.map Prod.fst ∨ h = keyOf E c := by
  cases hf : find s.cells (keyOf E c) with
  | some b =>
    rw [visitCoord_of_some E s c b hf]
    constructor
    · exact Or.inl
    · rintro (hm | rfl)
      · exact hm
      · rw [← find_isSome_iff, hf]; rfl
  | none =>
    rw [visitCoord_of_none E s c hf]
    simp only [List.map_cons, List.mem_cons]
    tauto

theorem visitAll_keys (E : Env) (s : GridState) (cs : List Coord) (h : Int) :
    h ∈ (visitAll E s cs).cells.map Prod.fst ↔
      h ∈ s.cells.map Prod.fst ∨ h ∈ cs.map (keyOf E) := by
  induction cs generalizing s with
  | nil => simp [visitAll]
  | cons c rest ih =>
    have h3 : visitAll E s (c :: rest) = visitAll E (visitCoord E s c) rest := rfl
    rw [h3, ih, visitCoord_keys, List.map_cons, List.mem_cons]
    tauto

theorem visitCoord_keys_nodup (E : Env) (s : GridState) (c : Coord)
    (hs : (s.cells.map Prod.fst).Nodup) : ((visitCoord E s c).cells.map Prod.fst).Nodup := by
  cases hf : find s.cells (keyOf E c) with
  | some b =>
    rw [visitCoord_of_some E s c b hf]
    exact hs
  | none =>
    rw [visitCoord_of_none E s c hf]
    simp only [List.map_cons]
    exact List.nodup_cons.mpr ⟨(find_eq_none_iff _ _).mp hf, hs⟩

theorem visitAll_keys_nodup (E : Env) (s : GridState) (cs : List Coord)
    (hs : (s.cells.map Prod.fst).Nodup) : ((visitAll E s cs).cells.map Prod.fst).Nodup := by
  induction cs generalizing s with
  | nil => exact hs
  | cons c rest ih => exact ih (visitCoord E s c) (visitCoord_keys_nodup E s c hs)

/-- The keys of `cells` after `createGrid` are the keys of the visited
coordinates, each once. -/
theorem createGrid_keys (E : Env) (points : List Vertex) :
    (∀ h : Int, h ∈ (createGrid E points).cells.map Prod.fst ↔
      h ∈ (cellCoords E points).map (keyOf E)) ∧
    ((createGrid E points).cells.map Prod.fst).Nodup := by
  unfold createGrid
  rw [createGridFrom_eq_visitAll]
  refine ⟨fun h => ?_, visitAll_keys_nodup E _ _ (by simp)⟩
  rw [visitAll_keys]
  simp

/-! ## Slot indices in range, step by step -/

theorem setupVertex_counter (E : Env) (cells : List (Int × FastBox)) (x y z : Int)
    (box_center : Vertex) (acc : FastBox × List QueryPoint × Int) (k : Nat)
    (h : acc.2.2 = acc.2.1.length) :
    (setupVertex E cells x y z box_center acc k).2.2 =
      (setupVertex E cells x y z box_center acc k).2.1.length := by
  by_cases hf : findQueryPoint E cells k x y z = -1
  · rw [setupVertex_miss E cells x y z box_center acc k hf]
    simp only [List.length_append, List.length_singleton]
    rw [h]; push_cast; ring
  · rw [setupVertex_hit E cells x y z box_center acc k hf]
    exact h

/-- The counter is the number of query points after any number of rounds of the
loop `for k`. -/
theorem setupVertex_rounds_counter (E : Env) (cells : List (Int × FastBox)) (x y z : Int)
    (box_center : Vertex) (acc : FastBox × List QueryPoint × Int) (k : Nat)
    (h : acc.2.2 = acc.2.1.length) :
    ((List.range k).foldl (setupVertex E cells x y z box_center) acc).2.2 =
      ((List.range k).foldl (setupVertex E cells x y z box_center) acc).2.1.length :=
  foldl_range_invariant (setupVertex E cells x y z box_center)
    (fun _ a => a.2.2 = a.2.1.length) k acc h
    (fun j _ a ha => setupVertex_counter E cells x y z box_center a j ha)

theorem processPoint_valid (E : Env) (s : GridState) (p : Vertex) (hs : SlotsValid s) :
    SlotsValid (processPoint E s p) := by
  rw [processPoint_eq_visitAll]
  exact visitAll_valid E s _ hs

theorem visitCell_valid (E : Env) (index_x index_y index_z : Int) (s : GridState) (j : Nat)
    (hs : SlotsValid s) : SlotsValid (visitCell E index_x index_y index_z s j) := by
  rw [visitCell_eq_visitCoord]
  exact visitCoord_valid E s _ hs

theorem slotsValid_init : SlotsValid ⟨[], [], 0⟩ :=
  ⟨rfl, fun e he => absurd he (List.not_mem_nil e)⟩

theorem queryPointAt_isSome (query_points : List QueryPoint) (i : Int) (h0 : 0 ≤ i)
    (h1 : i < query_points.length) : (queryPointAt query_points i).isSome := by
  unfold queryPointAt
  rw [if_pos h0]
  have : i.toNat < query_points.length := by omega
  rw [List.getElem?_eq_getElem this]
  rfl

theorem writeBox_isSome (query_points : List QueryPoint) (box : FastBox) (l : List Nat)
    (h : ∀ i ∈ l, 0 ≤ box.vertex i ∧ box.vertex i < query_points.length) :
    (writeBox query_points box l).isSome := by
  induction l with
  | nil => rfl
  | cons i rest ih =>
    have hi := h i (List.mem_cons_self _ _)
    have h1 := queryPointAt_isSome query_points (box.vertex i) hi.1 hi.2
    have h2 := ih (fun j hj => h j (List.mem_cons_of_mem _ hj))
    unfold writeBox
    cases hq : queryPointAt query_points (box.vertex i) with
    | none => rw [hq] at h1; exact absurd h1 (by simp)
    | some qp =>
      simp only [Option.isSome_map']
      exact h2

theorem writeCells_isSome (query_points : List QueryPoint) (cells : List (Int × FastBox))
    (h : ∀ e ∈ cells, ∀ k < 8, 0 ≤ e.2.vertex k ∧ e.2.vertex k < query_points.length) :
    (writeCells query_points cells).isSome := by
  induction cells with
  | nil => rfl
  | cons e rest ih =>
    have h1 := writeBox_isSome query_points e.2 (List.range 8)
      (fun i hi => h e (List.mem_cons_self _ _) i (List.mem_range.mp hi))
    have h2 := ih (fun e' he' => h e' (List.mem_cons_of_mem _ he'))
    unfold writeCells
    cases hw : writeBox query_points e.2 (List.range 8) with
    | none => rw [hw] at h1; exact absurd h1 (by simp)
    | some vs =>
      simp only [Option.isSome_map']
      exact h2

theorem writeGrid_isSome (s : GridState) (hs : SlotsValid s) : (writeGrid s).isSome :=
  writeCells_isSome s.query_points s.cells (fun e he => (hs.2 e he).2)

/-! ## calcQueryPointValues -/

theorem calcQueryPointValues_eq_map (distance : ColorVertex → ℚ)
    (query_points : List QueryPoint) :
    calcQueryPointValues distance query_points =
      query_points.map (fun p => ⟨p.position, distance ⟨p.position, 0, 1, 0⟩⟩) := by
  have key := foldl_range_invariant (calcQueryPointValue distance)
    (fun k acc => acc.length = query_points.length ∧
      ∀ i, acc[i]? = if i < k
        then (query_points[i]?).map (fun p => ⟨p.position, distance ⟨p.position, 0, 1, 0⟩⟩)
        else query_points[i]?)
    query_points.length query_points ⟨rfl, fun i => by simp⟩ ?_
  · apply List.ext_getElem?
    intro i
    rw [show calcQueryPointValues distance query_points =
      (List.range query_points.length).foldl (calcQueryPointValue distance) query_points from rfl,
      key.2 i, List.getElem?_map]
    by_cases hi : i < query_points.length
    · rw [if_pos hi]
    · rw [if_neg hi, List.getElem?_eq_none (by omega)]
      rfl
  · rintro k hk acc ⟨hlen, hacc⟩
    have hk' : query_points[k]? = some (query_points[k]) := List.getElem?_eq_getElem hk
    have hacck : acc[k]? = some (query_points[k]) := by
      rw [hacc k, if_neg (Nat.lt_irrefl k), hk']
    unfold calcQueryPointValue
    rw [hacck]
    refine ⟨by simp [hlen], ?_⟩
    intro i
    rw [List.getElem?_set]
    by_cases hik : k = i
    · subst hik
      rw [if_pos rfl, if_pos (by omega), if_pos (Nat.lt_succ_self k), hk']
      rfl
    · rw [if_neg hik, hacc i]
      by_cases hlt : i < k
      · rw [if_pos hlt, if_pos (by omega)]
      · rw [if_neg hlt, if_neg (by omega)]

/-! ## Slots and shared corners -/

theorem gridInv_slot_eq_iff {E : Env} {s : GridState} {C K : List Coord}
    (hI : GridInv E s C K) {c₁ c₂ : Coord} {k₁ k₂ n₁ n₂ : Nat}
    (hK₁ : K[n₁]? = some (corner c₁ k₁)) (hK₂ : K[n₂]? = some (corner c₂ k₂)) :
    (n₁ : Int) = (n₂ : Int) ↔ corner c₁ k₁ = corner c₂ k₂ := by
  constructor
  · intro h
    have h' : n₁ = n₂ := by exact_mod_cast h
    subst h'
    rw [hK₁] at hK₂
    exact Option.some.inj hK₂
  · intro h
    have hn₁ : n₁ < K.length := by
      by_contra hcon
      rw [List.getElem?_eq_none (by omega)] at hK₁
      exact Option.noConfusion hK₁
    have hn₂ : n₂ < K.length := by
      by_contra hcon
      rw [List.getElem?_eq_none (by omega)] at hK₂
      exact Option.noConfusion hK₂
    rw [List.getElem?_eq_getElem hn₁] at hK₁
    rw [List.getElem?_eq_getElem hn₂] at hK₂
    have e : K[n₁] = K[n₂] := by
      rw [Option.some.inj hK₁, Option.some.inj hK₂, h]
    have := (List.Nodup.getElem_inj_iff hI.nodupK).mp e
    exact_mod_cast this

theorem gridInv_slots_agree (E : Env) (points : List Vertex)
    (hinj : HashInjOn E (touchedCoords E points)) (c₁ c₂ : Coord)
    (h₁ : c₁ ∈ cellCoords E points) (h₂ : c₂ ∈ cellCoords E points) :
    ∃ b₁ b₂ : FastBox,
      find (createGrid E points).cells (keyOf E c₁) = some b₁ ∧
      find (createGrid E points).cells (keyOf E c₂) = some b₂ ∧
      (∀ k₁ < 8, ∀ k₂ < 8, (b₁.vertex k₁ = b₂.vertex k₂ ↔ corner c₁ k₁ = corner c₂ k₂)) ∧
      (∀ k₁ < 8, ∀ k₂ < 8, k₁ ≠ k₂ → b₁.vertex k₁ ≠ b₁.vertex k₂) := by
  obtain ⟨C, K, hI, hC⟩ := createGrid_inv E points hinj
  obtain ⟨b₁, hb₁, _, hs₁⟩ := hI.slots c₁ ((hC c₁).mpr h₁)
  obtain ⟨b₂, hb₂, _, hs₂⟩ := hI.slots c₂ ((hC c₂).mpr h₂)
  refine ⟨b₁, b₂, hb₁, hb₂, ?_, ?_⟩
  · intro k₁ hk₁ k₂ hk₂
    obtain ⟨n₁, hn₁, hK₁⟩ := hs₁ k₁ hk₁
    obtain ⟨n₂, hn₂, hK₂⟩ := hs₂ k₂ hk₂
    rw [hn₁, hn₂]
    exact gridInv_slot_eq_iff hI hK₁ hK₂
  · intro k₁ hk₁ k₂ hk₂ hne heq
    obtain ⟨n₁, hn₁, hK₁⟩ := hs₁ k₁ hk₁
    obtain ⟨n₂, hn₂, hK₂⟩ := hs₁ k₂ hk₂
    rw [hn₁, hn₂] at heq
    have := (gridInv_slot_eq_iff hI hK₁ hK₂).mp heq
    exact hne (corner_index_inj c₁ k₁ k₂ hk₁ hk₂ this)

/-! ## createMesh -/

theorem createMesh_append {Mesh : Type}
    (calcApproximation : FastBox → List QueryPoint → Mesh → Int → Mesh × Int)
    (cells : List (Int × FastBox)) (e : Int × FastBox) (query_points : List QueryPoint)
    (mesh : Mesh) :
    createMesh calcApproximation (cells ++ [e]) query_points mesh =
      calcApproximation e.2 query_points
        (createMesh calcApproximation cells query_points mesh).1
        (createMesh calcApproximation cells query_points mesh).2 := by
  simp [createMesh, List.foldl_append]

/-- The counters received: the first is the start value, each later one is the
value returned by the call before it. -/
theorem createMeshCounters_thread {Mesh : Type}
    (calcApproximation : FastBox → List QueryPoint → Mesh → Int → Mesh × Int)
    (query_points : List QueryPoint) (cells : List (Int × FastBox)) (acc : Mesh × Int) :
    (createMeshCounters calcApproximation query_points cells acc).length = cells.length ∧
    ∀ (i : Nat) (e : Int × FastBox), cells[i]? = some e →
      (createMeshCounters calcApproximation query_points cells acc)[i]? =
        some ((cells.take i).foldl
          (fun a e' => calcApproximation e'.2 query_points a.1 a.2) acc).2 := by
  induction cells generalizing acc with
  | nil => exact ⟨rfl, fun i e h => by simp at h⟩
  | cons d rest ih =>
    obtain ⟨hlen, hth⟩ := ih (calcApproximation d.2 query_points acc.1 acc.2)
    refine ⟨by simp [createMeshCounters, hlen], ?_⟩
    intro i e hi
    cases i with
    | zero => simp [createMeshCounters]
    | succ j =>
      simp only [List.getElem?_cons_succ] at hi
      simp only [createMeshCounters, List.getElem?_cons_succ, List.take_succ_cons,
        List.foldl_cons]
      exact hth j e hi

theorem range_map_append (g : Int) (a b : Nat) :
    (List.range a).map (fun (i : Nat) => g + (i : Int)) ++
        (List.range b).map (fun (i : Nat) => g + (a : Int) + (i : Int)) =
      (List.range (a + b)).map (fun (i : Nat) => g + (i : Int)) := by
  rw [List.range_add, List.map_append, List.map_map]
  congr 1
  apply List.map_congr_left
  intro i _
  simp only [Function.comp]
  push_cast
  ring

/-- With a polygonizer that numbers from the counter, the vertex indices of the
mesh after the loop are the ones before it followed by `g, g + 1, ...` up to the
returned counter. -/
theorem createMesh_fold_emitted {Mesh : Type}
    (calcApproximation : FastBox → List QueryPoint → Mesh → Int → Mesh × Int)
    (emitted : Mesh → List Int) (hP : NumbersFromCounter calcApproximation emitted)
    (query_points : List QueryPoint) (cells : List (Int × FastBox)) (acc : Mesh × Int) :
    ∃ n : Nat,
      (cells.foldl (fun a e => calcApproximation e.2 query_points a.1 a.2) acc).2 = acc.2 + n ∧
      emitted (cells.foldl (fun a e => calcApproximation e.2 query_points a.1 a.2) acc).1 =
        emitted acc.1 ++ (List.range n).map (fun (i : Nat) => acc.2 + (i : Int)) := by
  induction cells generalizing acc with
  | nil => exact ⟨0, by simp, by simp⟩
  | cons d rest ih =>
    obtain ⟨a, ha, hea⟩ := hP d.2 query_points acc.1 acc.2
    obtain ⟨b, hb, heb⟩ := ih (calcApproximation d.2 query_points acc.1 acc.2)
    refine ⟨a + b, ?_, ?_⟩
    · rw [List.foldl_cons, hb, ha]; push_cast; ring
    · rw [List.foldl_cons, heb, hea, ha, List.append_assoc, range_map_append]

theorem range_map_increasing (n : Nat) :
    ((List.range n).map (fun (i : Nat) => (0 : Int) + (i : Int))).Pairwise (· < ·) := by
  rw [List.pairwise_map]
  have h := List.pairwise_lt_range n
  exact h.imp (fun {a b} hab => by simp only [zero_add]; exact_mod_cast hab)

/-- The vertex indices after `createMesh`, started on a mesh without vertices. -/
theorem createMesh_emitted {Mesh : Type}
    (calcApproximation : FastBox → List QueryPoint → Mesh → Int → Mesh × Int)
    (emitted : Mesh → List Int) (hP : NumbersFromCounter calcApproximation emitted)
    (cells : List (Int × FastBox)) (query_points : List QueryPoint) (mesh : Mesh)
    (hmesh : emitted mesh = []) :
    ∃ n : Nat, (createMesh calcApproximation cells query_points mesh).2 = n ∧
      emitted (createMesh calcApproximation cells query_points mesh).1 =
        (List.range n).map (fun (i : Nat) => (0 : Int) + (i : Int)) := by
  obtain ⟨n, hn, he⟩ := createMesh_fold_emitted calcApproximation emitted hP query_points cells
    (mesh, 0)
  refine ⟨n, ?_, ?_⟩
  · unfold createMesh
    rw [hn]; simp
  · unfold createMesh
    rw [he, hmesh, List.nil_append]

theorem threeVertexPolygonizer_numbers :
    NumbersFromCounter threeVertexPolygonizer (fun m : List Int => m) := by
  intro b qp m g
  exact ⟨3, rfl, rfl⟩

/-! ## calcIndices for any voxel size other than 0 -/

theorem calcIndices_max_index_of_ne (x y z vs : ℚ) (hvs : vs ≠ 0) :
    (calcIndices x y z vs).max_index = ⌈max (max x y) z / vs⌉ + 5 := by
  have h : (max (max x y) z + 5 * vs) / vs = max (max x y) z / vs + ((5 : Int) : ℚ) := by
    field_simp
  simp only [calcIndices]
  rw [h, Int.ceil_add_int]

/-! ## Occupied keys -/

theorem visitCell_of_some (E : Env) (index_x index_y index_z : Int) (s : GridState) (j : Nat)
    (b : FastBox)
    (h : find s.cells (E.hashValue (index_x + tableAt E.HGCreateTable j 0)
      (index_y + tableAt E.HGCreateTable j 1) (index_z + tableAt E.HGCreateTable j 2)) = some b) :
    visitCell E index_x index_y index_z s j = s := by
  rw [visitCell_eq_visitCoord]
  exact visitCoord_of_some E s _ b h

/-- A point all of whose eight keys are keys of coordinates visited before
leaves the grid as it is, whatever those coordinates are. -/
theorem createGrid_absorbs (E : Env) (ps : List Vertex) (p : Vertex)
    (h : ∀ c ∈ cellsAround E (pointIndex E p), ∃ c' ∈ cellCoords E ps, keyOf E c' = keyOf E c) :
    createGrid E (ps ++ [p]) = createGrid E ps := by
  unfold createGrid
  rw [createGridFrom_eq_visitAll, createGridFrom_eq_visitAll, cellCoords_append, visitAll_append]
  apply visitAll_of_present
  intro c hc
  have hc' : c ∈ cellsAround E (pointIndex E p) := by
    simpa [cellCoords] using hc
  obtain ⟨c', hc'mem, hkey⟩ := h c hc'
  rw [← hkey]
  exact visitAll_present E _ _ c' hc'mem

/-! ## Positions of the query points -/

theorem slotPosition_eq_latticePosition (E : Env) (c : Coord) (k : Nat) :
    slotPosition E c k = latticePosition E (corner c k) := by
  simp only [slotPosition, latticePosition, corner, Vertex.mk.injEq]
  refine ⟨?_, ?_, ?_⟩ <;> (push_cast; ring)

theorem cornerPosition_boxCenter (E : Env) (c : Coord) (k : Nat) :
    cornerPosition E (boxCenter E c) k = slotPosition E c k := by
  simp only [cornerPosition, boxCenter, slotPosition, Vertex.mk.injEq]
  refine ⟨?_, ?_, ?_⟩ <;> ring

theorem posInv_mem_of_key {E : Env} {T : List Coord} (hinj : HashInjOn E T) {s : GridState}
    {C : List Coord} (hI : PosInv E s C) (hCT : ∀ c ∈ C, c ∈ T) {c : Coord} (hc : c ∈ T)
    {b : FastBox} (hb : find s.cells (keyOf E c) = some b) : c ∈ C := by
  have h1 : keyOf E c ∈ s.cells.map Prod.fst := by
    rw [← find_isSome_iff, hb]; rfl
  rw [hI.keys] at h1
  obtain ⟨c', hc', hkey⟩ := List.mem_map.mp h1
  have := hinj c' (hCT c' hc') c hc hkey
  rw [← this]
  exact hc'

/-- A hit of `findQueryPoint` is the index of a query point at the position of
the requested corner. -/
theorem findQueryPoint_hit_position {E : Env} {T : List Coord} (hinj : HashInjOn E T)
    {s : GridState} {C : List Coord} (hI : PosInv E s C) (hCT : ∀ c ∈ C, c ∈ T)
    (c : Coord) (hprobe : ∀ n ∈ setupBoxProbes E s.cells c, n ∈ T) (k : Nat) (hk : k < 8)
    (h : findQueryPoint E s.cells k c.1 c.2.1 c.2.2 ≠ -1) :
    ∃ (n : Nat) (qp : QueryPoint), findQueryPoint E s.cells k c.1 c.2.1 c.2.2 = (n : Int) ∧
      s.query_points[n]? = some qp ∧ qp.position = slotPosition E c k := by
  obtain ⟨i, hi, b, hb, _, hres, hfirst⟩ :=
    findQueryPoint_ne_neg_one E s.cells k c.1 c.2.1 c.2.2 h
  have hmem := posInv_mem_of_key hinj hI hCT
    (hprobe _ (mem_setupBoxProbes E s.cells c k i hk hi hfirst)) hb
  obtain ⟨b', hb', hslots⟩ := hI.slots _ hmem
  have hbb : b' = b := by
    have : find s.cells (keyOf E (c.1 + (sharedEntry k i).1, c.2.1 + (sharedEntry k i).2.1,
      c.2.2 + (sharedEntry k i).2.2.1)) = some b := hb
    rw [hb'] at this
    exact Option.some.inj this
  subst hbb
  obtain ⟨n, qp, hn, hq, hpos⟩ := hslots _ (sharedEntry_slot_lt k i hk hi)
  refine ⟨n, qp, by rw [hres, hn], hq, ?_⟩
  rw [hpos, slotPosition_eq_latticePosition, sharedEntry_corner k i hk hi c,
    ← slotPosition_eq_latticePosition]

/-- The loop `for k` of `createGrid` for a new cell: every slot receives the index
of a query point at the position of its corner. -/
theorem setupBox_pos {E : Env} {T : List Coord} (hinj : HashInjOn E T)
    {s : GridState} {C : List Coord} (hI : PosInv E s C) (hCT : ∀ c ∈ C, c ∈ T)
    (c : Coord) (hprobe : ∀ n ∈ setupBoxProbes E s.cells c, n ∈ T) :
    s.query_points <+: (setupBox E s c).2.1 ∧
    (setupBox E s c).2.2 = (setupBox E s c).2.1.length ∧
    ∀ k < 8, ∃ (n : Nat) (qp : QueryPoint), (setupBox E s c).1.vertex k = (n : Int) ∧
      (setupBox E s c).2.1[n]? = some qp ∧ qp.position = slotPosition E c k := by
  have key := foldl_range_invariant
    (setupVertex E s.cells c.1 c.2.1 c.2.2 (boxCenter E c))
    (fun k acc => s.query_points <+: acc.2.1 ∧ acc.2.2 = acc.2.1.length ∧
      acc.1.vertices.length = 8 ∧
      ∀ k' < k, ∃ (n : Nat) (qp : QueryPoint), acc.1.vertex k' = (n : Int) ∧
        acc.2.1[n]? = some qp ∧ qp.position = slotPosition E c k')
    8 (FastBox.fresh, s.query_points, s.global_index) ?_ ?_
  · exact ⟨key.1, key.2.1, key.2.2.2⟩
  · refine ⟨List.prefix_refl _, hI.counter, by simp [FastBox.fresh], ?_⟩
    intro k' hk'
    exact absurd hk' (Nat.not_lt_zero _)
  · rintro k hk acc ⟨hpre, hgi, hv8, hslots⟩
    by_cases h : findQueryPoint E s.cells k c.1 c.2.1 c.2.2 = -1
    · rw [setupVertex_miss E s.cells c.1 c.2.1 c.2.2 (boxCenter E c) acc k h]
      refine ⟨hpre.trans (List.prefix_append _ _), ?_, ?_, ?_⟩
      · simp only [List.length_append, List.length_singleton]
        rw [hgi]; push_cast; ring
      · simpa [length_setVertex] using hv8
      · intro k' hk'
        by_cases hkk : k' = k
        · subst hkk
          refine ⟨acc.2.1.length, QueryPoint.ofPosition (cornerPosition E (boxCenter E c) k'),
            ?_, ?_, ?_⟩
          · rw [vertex_setVertex_self _ _ _ (by omega), hgi]
          · simp
          · exact cornerPosition_boxCenter E c k'
        · obtain ⟨n, qp, hn, hq, hpos⟩ := hslots k' (by omega)
          refine ⟨n, qp, ?_, getElem?_of_extends (List.prefix_append _ _) hq, hpos⟩
          rw [vertex_setVertex_ne _ _ _ _ (Ne.symm hkk)]
          exact hn
    · rw [setupVertex_hit E s.cells c.1 c.2.1 c.2.2 (boxCenter E c) acc k h]
      obtain ⟨n, qp, hn, hq, hpos⟩ := findQueryPoint_hit_position hinj hI hCT c hprobe k hk h
      refine ⟨hpre, hgi, by simpa [length_setVertex] using hv8, ?_⟩
      intro k' hk'
      by_cases hkk : k' = k
      · subst hkk
        refine ⟨n, qp, ?_, getElem?_of_extends hpre hq, hpos⟩
        rw [vertex_setVertex_self _ _ _ (by omega)]
        exact hn
      · obtain ⟨m, qm, hm, hqm, hposm⟩ := hslots k' (by omega)
        refine ⟨m, qm, ?_, hqm, hposm⟩
        rw [vertex_setVertex_ne _ _ _ _ (Ne.symm hkk)]
        exact hm

theorem visitCoord_pos {E : Env} {T : List Coord} (hinj : HashInjOn E T)
    {s : GridState} {C : List Coord} (hI : PosInv E s C) (hCT : ∀ c ∈ C, c ∈ T)
    (c : Coord) (hc : c ∈ T) (hprobe : ∀ n ∈ visitCoordProbes E s c, n ∈ T) :
    PosInv E (visitCoord E s c) (List.insert c C) := by
  cases hf : find s.cells (keyOf E c) with
  | some b =>
    have hmem := posInv_mem_of_key hinj hI hCT hc hf
    rw [visitCoord_of_some E s c b hf, List.insert_of_mem hmem]
    exact hI
  | none =>
    have hnew : c ∉ C := by
      intro hcC
      rw [find_eq_none_iff, hI.keys] at hf
      exact hf (List.mem_map.mpr ⟨c, hcC, rfl⟩)
    have hprobe' : ∀ n ∈ setupBoxProbes E s.cells c, n ∈ T := by
      intro n hn
      apply hprobe
      unfold visitCoordProbes
      rw [hf]
      exact hn
    obtain ⟨hpre, hgi, hslots⟩ := setupBox_pos hinj hI hCT c hprobe'
    rw [visitCoord_of_none E s c hf, List.insert_of_not_mem hnew]
    constructor
    · simp only [List.map_cons, hI.keys]
    · exact hgi
    · intro c' hc'
      simp only
      rcases List.mem_cons.mp hc' with rfl | hc'
      · exact ⟨_, find_cons_self _ _ _, hslots⟩
      · obtain ⟨b, hb, hbs⟩ := hI.slots c' hc'
        have hne : keyOf E c ≠ keyOf E c' := by
          intro heq
          rw [heq, hb] at hf
          exact Option.noConfusion hf
        refine ⟨b, by rw [find_cons_ne _ _ hne]; exact hb, ?_⟩
        intro k hk
        obtain ⟨n, qp, hn, hq, hpos⟩ := hbs k hk
        exact ⟨n, qp, hn, getElem?_of_extends hpre hq, hpos⟩

theorem visitAll_pos {E : Env} {T : List Coord} (hinj : HashInjOn E T) (cs : List Coord)
    {s : GridState} {C : List Coord} (hI : PosInv E s C) (hCT : ∀ c ∈ C, c ∈ T)
    (hcs : ∀ c ∈ cs, c ∈ T) (hprobe : ∀ n ∈ visitAllProbes E s cs, n ∈ T) :
    ∃ C', PosInv E (visitAll E s cs) C' ∧ (∀ c, c ∈ C' ↔ c ∈ C ∨ c ∈ cs) := by
  induction cs generalizing s C with
  | nil => exact ⟨C, hI, fun c => by simp⟩
  | cons d rest ih =>
    have hd := hcs d (List.mem_cons_self _ _)
    have hsplit : visitAllProbes E s (d :: rest) =
        visitCoordProbes E s d ++ visitAllProbes E (visitCoord E s d) rest := rfl
    rw [hsplit] at hprobe
    have hI₁ := visitCoord_pos hinj hI hCT d hd
      (fun n hn => hprobe n (List.mem_append_left _ hn))
    have hCT₁ : ∀ c ∈ List.insert d C, c ∈ T := by
      intro c hc
      rcases List.mem_insert_iff.mp hc with rfl | hc
      · exact hd
      · exact hCT c hc
    obtain ⟨C', hI', hC'⟩ :=
      ih hI₁ hCT₁ (fun c hc => hcs c (List.mem_cons_of_mem _ hc))
        (fun n hn => hprobe n (List.mem_append_right _ hn))
    refine ⟨C', hI', ?_⟩
    intro c
    rw [hC' c, List.mem_insert_iff, List.mem_cons]
    tauto

/-- The position invariant holds after `createGrid`, for the cells visited. -/
theorem createGrid_pos (E : Env) (points : List Vertex)
    (hinj : HashInjOn E (touchedCoords E points)) :
    ∃ C, PosInv E (createGrid E points) C ∧ ∀ c, c ∈ C ↔ c ∈ cellCoords E points := by
  unfold createGrid
  rw [createGridFrom_eq_visitAll]
  have h0 : PosInv E ⟨[], [], 0⟩ [] := by
    constructor <;> simp
  obtain ⟨C, hI, hC⟩ := visitAll_pos hinj (cellCoords E points) h0 (by simp)
    (fun c hc => List.mem_append_left _ hc) (fun n hn => List.mem_append_right _ hn)
  exact ⟨C, hI, fun c => by simpa using hC c⟩

/-! ## The key packing for any stored indices -/

theorem calcIndices_eq_exactOps (x y z vs : ℚ) :
    calcIndices x y z vs = calcIndicesWith exactOps x y z vs :=
  rfl

/-- The keys are injective for any indices whose counts for `j` and `k` do not
exceed `max_index`, when the packing does not overflow. -/
theorem keysInjective_of_margins (I : GridIndices)
    (hsq : I.max_index_square = wrap32 (I.max_index * I.max_index))
    (hy : I.max_index_y ≤ I.max_index) (hz : I.max_index_z ≤ I.max_index)
    (hsmall : I.max_index_x * I.max_index * I.max_index < 2 ^ 31) :
    KeysInjective I := by
  intro i j k i' j' k' hi hj hk hi' hj' hk' hkey
  have hX : 1 ≤ I.max_index_x := by omega
  have hM0 : 0 < I.max_index := by omega
  have hMM : I.max_index * I.max_index < 2 ^ 31 := by
    have : 1 * (I.max_index * I.max_index) ≤ I.max_index_x * (I.max_index * I.max_index) :=
      mul_le_mul_of_nonneg_right hX (mul_pos hM0 hM0).le
    rw [one_mul, ← mul_assoc] at this
    exact lt_of_le_of_lt this hsmall
  have hsq' : I.max_index_square = I.max_index * I.max_index := by
    have hpow : (2 : Int) ^ 31 = 2147483648 := by norm_num
    rw [hpow] at hMM
    have h0 := (mul_pos hM0 hM0).le
    rw [hsq]
    exact wrap32_of_range _ (by omega) (by omega)
  rw [hashValue_eq_pack I _ _ rfl hsq' hsmall i j k hi (by omega) (by omega),
    hashValue_eq_pack I _ _ rfl hsq' hsmall i' j' k' hi' (by omega) (by omega)] at hkey
  exact pack_inj _ i j k i' j' k' (by omega) (by omega) (by omega) (by omega) hkey

/-! ## The loop over the eight cells around any index -/

theorem visitCell_rounds_eq_visitAll (E : Env) (index_x index_y index_z : Int) (s : GridState) :
    (List.range 8).foldl (visitCell E index_x index_y index_z) s =
      visitAll E s (cellsAround E (index_x, index_y, index_z)) := by
  unfold visitAll cellsAround
  rw [List.foldl_map]
  rfl

/-- After the loop `for j` the keys of all eight coordinates around the index are
in `cells`, and what was stored before is unchanged. -/
theorem visitCell_rounds_present (E : Env) (index_x index_y index_z : Int) (s : GridState) :
    (∀ j < 8, ∃ b : FastBox,
      find ((List.range 8).foldl (visitCell E index_x index_y index_z) s).cells
        (E.hashValue (index_x + tableAt E.HGCreateTable j 0)
          (index_y + tableAt E.HGCreateTable j 1)
          (index_z + tableAt E.HGCreateTable j 2)) = some b) ∧
    (∀ (h : Int) (b : FastBox), find s.cells h = some b →
      find ((List.range 8).foldl (visitCell E index_x index_y index_z) s).cells h = some b) ∧
    s.query_points <+:
      ((List.range 8).foldl (visitCell E index_x index_y index_z) s).query_points := by
  rw [visitCell_rounds_eq_visitAll]
  refine ⟨?_, visitAll_frame E s _⟩
  intro j hj
  have hmem : (index_x + tableAt E.HGCreateTable j 0, index_y + tableAt E.HGCreateTable j 1,
      index_z + tableAt E.HGCreateTable j 2) ∈ cellsAround E (index_x, index_y, index_z) := by
    simp only [cellsAround, createOffset, List.mem_map, List.mem_range]
    exact ⟨j, hj, rfl⟩
  exact visitAll_present E s _ _ hmem

/-- The loop `for i` of `createGrid` is `createGridAt` at the indices of the points. -/
theorem createGridFrom_eq_createGridAt (E : Env) (s : GridState) (points : List Vertex) :
    createGridFrom E s points = createGridAt E s (points.map (pointIndex E)) := by
  unfold createGridFrom createGridAt
  rw [List.foldl_map]
  rfl

theorem createGridAt_eq_visitAll (E : Env) (s : GridState) (indices : List Coord) :
    createGridAt E s indices = visitAll E s (indices.flatMap (cellsAround E)) := by
  induction indices generalizing s with
  | nil => rfl
  | cons idx rest ih =>
    have h1 : createGridAt E s (idx :: rest) =
        createGridAt E ((List.range 8).foldl (visitCell E idx.1 idx.2.1 idx.2.2) s) rest := rfl
    rw [h1, ih, visitCell_rounds_eq_visitAll, List.flatMap_cons, visitAll_append]

/-- At the end of the loop `for i` the keys of the eight coordinates around the
index of every point are in `cells`. -/
theorem createGridAt_present (E : Env) (s : GridState) (indices : List Coord) :
    ∀ idx ∈ indices, ∀ j < 8, ∃ b : FastBox,
      find (createGridAt E s indices).cells
        (E.hashValue (idx.1 + tableAt E.HGCreateTable j 0)
          (idx.2.1 + tableAt E.HGCreateTable j 1)
          (idx.2.2 + tableAt E.HGCreateTable j 2)) = some b := by
  intro idx hidx j hj
  rw [createGridAt_eq_visitAll]
  have hmem : (idx.1 + tableAt E.HGCreateTable j 0, idx.2.1 + tableAt E.HGCreateTable j 1,
      idx.2.2 + tableAt E.HGCreateTable j 2) ∈ indices.flatMap (cellsAround E) := by
    simp only [cellsAround, createOffset, List.mem_flatMap, List.mem_map, List.mem_range]
    exact ⟨idx, hidx, j, hj, rfl⟩
  exact visitAll_present E s _ _ hmem

/-! ## The margins of the counts under accurate rounding -/

theorem exactOps_roundsWithin (u : ℚ) (hu : 0 ≤ u) (x y z vs : ℚ) :
    RoundsWithin u exactOps x y z vs := by
  refine ⟨?_, ?_, fun a _ => ⟨a / vs, rfl, ?_⟩⟩
  · simp only [exactOps, sub_self, abs_zero]
    exact mul_nonneg hu (abs_nonneg _)
  · simp only [exactOps, sub_self, abs_zero]
    exact mul_nonneg hu (abs_nonneg _)
  · simp only [sub_self, abs_zero]
    exact mul_nonneg hu (abs_nonneg _)

/-- With a relative rounding error of at most `2 ^ -24` and `max_index` below
46341, a count `(int)ceil(w / voxelsize) + 3` for an extent `w` that is not above
the largest extent does not exceed `max_index`. -/
theorem ceilDiv_margin (F : FloatOps) (m w vs : ℚ)
    (ht : |F.mul 5 vs - 5 * vs| ≤ 1 / 2 ^ 24 * |5 * vs|)
    (hn : |F.add m (F.mul 5 vs) - (m + F.mul 5 vs)| ≤ 1 / 2 ^ 24 * |m + F.mul 5 vs|)
    (hdivn : ∃ d : ℚ, F.ceilDiv (F.add m (F.mul 5 vs)) vs = ⌈d⌉ ∧
      |d - F.add m (F.mul 5 vs) / vs| ≤ 1 / 2 ^ 24 * |F.add m (F.mul 5 vs) / vs|)
    (hdivw : ∃ d : ℚ, F.ceilDiv w vs = ⌈d⌉ ∧ |d - w / vs| ≤ 1 / 2 ^ 24 * |w / vs|)
    (hw0 : 0 ≤ w) (hwm : w ≤ m) (hvs : 0 < vs)
    (hM : F.ceilDiv (F.add m (F.mul 5 vs)) vs ≤ 46340) :
    0 ≤ F.ceilDiv w vs ∧ F.ceilDiv w vs + 3 ≤ F.ceilDiv (F.add m (F.mul 5 vs)) vs := by
  have hu : (1 : ℚ) / 2 ^ 24 = 1 / 16777216 := by norm_num
  rw [hu] at ht hn hdivn hdivw
  have hm0 : 0 ≤ m := le_trans hw0 hwm
  -- the product 5 * voxelsize
  rw [abs_of_nonneg (by positivity : (0 : ℚ) ≤ 5 * vs)] at ht
  have ht1 : 5 * vs - 1 / 16777216 * (5 * vs) ≤ F.mul 5 vs := by
    have := (abs_le.mp ht).1
    linarith
  -- the sum
  have hmt : 0 ≤ m + F.mul 5 vs := by linarith
  rw [abs_of_nonneg hmt] at hn
  have hn1 : (m + F.mul 5 vs) - 1 / 16777216 * (m + F.mul 5 vs) ≤ F.add m (F.mul 5 vs) := by
    have := (abs_le.mp hn).1
    linarith
  have hn0 : 0 ≤ F.add m (F.mul 5 vs) := by linarith
  -- the two quotients
  obtain ⟨D, hD, hDerr⟩ := hdivn
  obtain ⟨d, hd, hderr⟩ := hdivw
  have hq0 : 0 ≤ F.add m (F.mul 5 vs) / vs := div_nonneg hn0 hvs.le
  have hr0 : 0 ≤ w / vs := div_nonneg hw0 hvs.le
  rw [abs_of_nonneg hq0] at hDerr
  rw [abs_of_nonneg hr0] at hderr
  have hqv : F.add m (F.mul 5 vs) / vs * vs = F.add m (F.mul 5 vs) :=
    div_mul_cancel₀ _ (ne_of_gt hvs)
  have hrv : w / vs * vs = w := div_mul_cancel₀ _ (ne_of_gt hvs)
  have hD1 : F.add m (F.mul 5 vs) / vs - 1 / 16777216 * (F.add m (F.mul 5 vs) / vs) ≤ D := by
    have := (abs_le.mp hDerr).1
    linarith
  have hd1 : d ≤ w / vs + 1 / 16777216 * (w / vs) := by
    have := (abs_le.mp hderr).2
    linarith
  have hd0 : w / vs - 1 / 16777216 * (w / vs) ≤ d := by
    have := (abs_le.mp hderr).1
    linarith
  have hDv : F.add m (F.mul 5 vs) - 1 / 16777216 * F.add m (F.mul 5 vs) ≤ D * vs := by
    have := mul_le_mul_of_nonneg_right hD1 hvs.le
    have e : (F.add m (F.mul 5 vs) / vs - 1 / 16777216 * (F.add m (F.mul 5 vs) / vs)) * vs =
        F.add m (F.mul 5 vs) / vs * vs - 1 / 16777216 * (F.add m (F.mul 5 vs) / vs * vs) := by
      ring
    rw [e, hqv] at this
    exact this
  have hdv : d * vs ≤ w + 1 / 16777216 * w := by
    have := mul_le_mul_of_nonneg_right hd1 hvs.le
    have e : (w / vs + 1 / 16777216 * (w / vs)) * vs =
        w / vs * vs + 1 / 16777216 * (w / vs * vs) := by ring
    rw [e, hrv] at this
    exact this
  -- the bound on `max_index`
  have hDM : D ≤ ((F.ceilDiv (F.add m (F.mul 5 vs)) vs : Int) : ℚ) := by
    rw [hD]
    exact Int.le_ceil D
  have hM' : ((F.ceilDiv (F.add m (F.mul 5 vs)) vs : Int) : ℚ) ≤ 46340 := by
    exact_mod_cast hM
  have hDvs : D * vs ≤ 46340 * vs := mul_le_mul_of_nonneg_right (le_trans hDM hM') hvs.le
  have hgoal : (d + 3) * vs ≤ D * vs := by
    have e : (d + 3) * vs = d * vs + 3 * vs := by ring
    rw [e]
    linarith
  have hdD : d + ((3 : Int) : ℚ) ≤ D := by
    have := le_of_mul_le_mul_right hgoal hvs
    push_cast
    exact this
  constructor
  · rw [hd]
    have hdnn : 0 ≤ d := by
      have : 0 ≤ w / vs - 1 / 16777216 * (w / vs) := by nlinarith
      linarith
    exact Int.ceil_nonneg hdnn
  · rw [hd, hD, ← Int.ceil_add_int]
    exact Int.ceil_le_ceil hdD

theorem max_index_le_of_square (M : Int) (h : M * M < 2 ^ 31) : M ≤ 46340 := by
  by_contra hcon
  have h1 : 46341 ≤ M := by omega
  have hpow : (2 : Int) ^ 31 = 2147483648 := by norm_num
  rw [hpow] at h
  nlinarith

/-- With a relative rounding error of at most `2 ^ -24`, non-negative extents
and a voxel size > 0, the counts for `j` and `k` do not exceed `max_index`
when the packing does not overflow. -/
theorem margins_of_roundsWithin (F : FloatOps) (x y z vs : ℚ)
    (hF : RoundsWithin (1 / 2 ^ 24) F x y z vs)
    (hx : 0 ≤ x) (hy : 0 ≤ y) (hz : 0 ≤ z) (hvs : 0 < vs)
    (hsmall : (calcIndicesWith F x y z vs).max_index_x * (calcIndicesWith F x y z vs).max_index *
      (calcIndicesWith F x y z vs).max_index < 2 ^ 31) :
    (calcIndicesWith F x y z vs).max_index_y ≤ (calcIndicesWith F x y z vs).max_index ∧
    (calcIndicesWith F x y z vs).max_index_z ≤ (calcIndicesWith F x y z vs).max_index := by
  obtain ⟨hmul, hadd, hdiv⟩ := hF
  have hX0 : 0 ≤ F.ceilDiv x vs := by
    obtain ⟨d, hd, hderr⟩ := hdiv x (by simp)
    have hr0 : 0 ≤ x / vs := div_nonneg hx hvs.le
    rw [abs_of_nonneg hr0] at hderr
    have h1 := (abs_le.mp hderr).1
    have hu : (1 : ℚ) / 2 ^ 24 = 1 / 16777216 := by norm_num
    rw [hu] at h1
    have hdnn : 0 ≤ d := by
      have : 0 ≤ x / vs - 1 / 16777216 * (x / vs) := by nlinarith
      linarith
    rw [hd]
    exact Int.ceil_nonneg hdnn
  have hMM : (calcIndicesWith F x y z vs).max_index * (calcIndicesWith F x y z vs).max_index
      < 2 ^ 31 := by
    have h1 : 1 ≤ (calcIndicesWith F x y z vs).max_index_x := by
      show 1 ≤ F.ceilDiv x vs + 1
      omega
    have h2 := mul_self_nonneg (calcIndicesWith F x y z vs).max_index
    have h3 : 1 * ((calcIndicesWith F x y z vs).max_index *
        (calcIndicesWith F x y z vs).max_index) ≤
        (calcIndicesWith F x y z vs).max_index_x *
          ((calcIndicesWith F x y z vs).max_index * (calcIndicesWith F x y z vs).max_index) :=
      mul_le_mul_of_nonneg_right h1 h2
    rw [one_mul, ← mul_assoc] at h3
    exact lt_of_le_of_lt h3 hsmall
  have hM := max_index_le_of_square _ hMM
  have hMy := ceilDiv_margin F (max (max x y) z) y vs hmul hadd (hdiv _ (by simp))
    (hdiv y (by simp)) hy (le_max_of_le_left (le_max_right x y)) hvs hM
  have hMz := ceilDiv_margin F (max (max x y) z) z vs hmul hadd (hdiv _ (by simp))
    (hdiv z (by simp)) hz (le_max_right _ z) hvs hM
  constructor
  · show F.ceilDiv y vs + 2 ≤ F.ceilDiv (F.add (max (max x y) z) (F.mul 5 vs)) vs
    omega
  · show F.ceilDiv z vs + 3 ≤ F.ceilDiv (F.add (max (max x y) z) (F.mul 5 vs)) vs
    omega

theorem roundSingle_error (q : ℚ) : |roundSingle q - q| ≤ 1 / 2 ^ 24 * |q| := by
  unfold roundSingle
  by_cases hq : q = 0
  · simp [hq]
  · rw [if_neg hq]
    have habs : 0 < |q| := abs_pos.mpr hq
    have hlog : (2 : ℚ) ^ Int.log 2 |q| ≤ |q| := by
      have := Int.zpow_log_le_self (b := 2) (by norm_num) habs
      exact_mod_cast this
    have hulp : (0 : ℚ) < (2 : ℚ) ^ (Int.log 2 |q| - 23) := by positivity
    have hsplit : (2 : ℚ) ^ (Int.log 2 |q| - 23) = (2 : ℚ) ^ Int.log 2 |q| / 2 ^ 23 := by
      rw [zpow_sub₀ (by norm_num : (2 : ℚ) ≠ 0)]
      norm_num
    have hround := abs_sub_round (q / (2 : ℚ) ^ (Int.log 2 |q| - 23))
    have e : (round (q / (2 : ℚ) ^ (Int.log 2 |q| - 23)) : ℚ) * (2 : ℚ) ^ (Int.log 2 |q| - 23) - q =
        -((q / (2 : ℚ) ^ (Int.log 2 |q| - 23) -
          (round (q / (2 : ℚ) ^ (Int.log 2 |q| - 23)) : ℚ)) * (2 : ℚ) ^ (Int.log 2 |q| - 23)) := by
      have hne : (2 : ℚ) ^ (Int.log 2 |q| - 23) ≠ 0 := ne_of_gt hulp
      rw [sub_mul, div_mul_cancel₀ _ hne]
      ring
    rw [e, abs_neg, abs_mul, abs_of_pos hulp]
    calc |q / (2 : ℚ) ^ (Int.log 2 |q| - 23) -
            (round (q / (2 : ℚ) ^ (Int.log 2 |q| - 23)) : ℚ)| * (2 : ℚ) ^ (Int.log 2 |q| - 23)
        ≤ 1 / 2 * (2 : ℚ) ^ (Int.log 2 |q| - 23) := mul_le_mul_of_nonneg_right hround hulp.le
      _ = 1 / 2 ^ 24 * (2 : ℚ) ^ Int.log 2 |q| := by rw [hsplit]; ring
      _ ≤ 1 / 2 ^ 24 * |q| := mul_le_mul_of_nonneg_left hlog (by positivity)

theorem singleOps_roundsWithin (x y z vs : ℚ) :
    RoundsWithin (1 / 2 ^ 24) singleOps x y z vs :=
  ⟨roundSingle_error (5 * vs), roundSingle_error _,
   fun a _ => ⟨roundSingle (a / vs), rfl, roundSingle_error (a / vs)⟩⟩

/-! # The claims -/

/-- C1. Corner uniqueness of `createGrid`: when the key function is injective on
the coordinates created or probed (every coordinate whose key is computed
during the run), the number of query points is the number of distinct lattice
points `2 * c + box_creation_table[k]` over the created cells `c`, which are the
distinct visited coordinates; and the number is the same for the input points
in any other order, the key function being injective on the coordinates
created or probed in that run. -/
theorem createGrid_corner_uniqueness (E : Env) (points : List Vertex)
    (hinj : HashInjOn E (touchedCoords E points)) :
    (createGrid E points).query_points.length =
        (cornersOf (cellCoords E points)).toFinset.card ∧
    (createGrid E points).cells.length = (cellCoords E points).toFinset.card ∧
    ∀ points' : List Vertex, points'.Perm points → HashInjOn E (touchedCoords E points') →
      (createGrid E points').query_points.length = (createGrid E points).query_points.length := by
  obtain ⟨hq, hc⟩ := createGrid_count E points hinj
  refine ⟨hq, hc, ?_⟩
  intro points' hperm hinj'
  rw [(createGrid_count E points' hinj').1, hq,
    toFinset_cornersOf_congr (mem_cellCoords_perm E hperm)]

/-- C1, at three points of which two lie in one voxel. -/
theorem createGrid_corner_uniqueness_witness :
    HashInjOn unitGrid (touchedCoords unitGrid [⟨0, 0, 0⟩, ⟨1 / 2, 1 / 3, 0⟩, ⟨3 / 2, 0, 0⟩]) ∧
    ((createGrid unitGrid [⟨0, 0, 0⟩, ⟨1 / 2, 1 / 3, 0⟩, ⟨3 / 2, 0, 0⟩]).query_points.length =
        (cornersOf (cellCoords unitGrid
          [⟨0, 0, 0⟩, ⟨1 / 2, 1 / 3, 0⟩, ⟨3 / 2, 0, 0⟩])).toFinset.card ∧
     (createGrid unitGrid [⟨0, 0, 0⟩, ⟨1 / 2, 1 / 3, 0⟩, ⟨3 / 2, 0, 0⟩]).cells.length =
        (cellCoords unitGrid [⟨0, 0, 0⟩, ⟨1 / 2, 1 / 3, 0⟩, ⟨3 / 2, 0, 0⟩]).toFinset.card ∧
     ∀ points' : List Vertex,
      points'.Perm [⟨0, 0, 0⟩, ⟨1 / 2, 1 / 3, 0⟩, ⟨3 / 2, 0, 0⟩] →
      HashInjOn unitGrid (touchedCoords unitGrid points') →
      (createGrid unitGrid points').query_points.length =
        (createGrid unitGrid
          [⟨0, 0, 0⟩, ⟨1 / 2, 1 / 3, 0⟩, ⟨3 / 2, 0, 0⟩]).query_points.length) :=
  ⟨unitGrid_injOn _ (by decide!),
   createGrid_corner_uniqueness unitGrid _ (unitGrid_injOn _ (by decide!))⟩

/-- C2. Construction completeness: after `createGrid` every stored cell has
eight slots and none of them holds the sentinel -1. -/
theorem createGrid_complete (E : Env) (points : List Vertex) (e : Int × FastBox)
    (he : e ∈ (createGrid E points).cells) :
    e.2.vertices.length = 8 ∧ ∀ k < 8, e.2.vertex k ≠ -1 := by
  obtain ⟨h8, hslots⟩ := (createGrid_valid E points).2 e he
  refine ⟨h8, ?_⟩
  intro k hk
  have := (hslots k hk).1
  omega

/-- C2, at the first cell created for a point at the origin. -/
theorem createGrid_complete_witness :
    ((0, ⟨[0, 1, 2, 3, 4, 5, 6, 7]⟩) : Int × FastBox) ∈ (createGrid unitGrid [⟨0, 0, 0⟩]).cells ∧
    ((⟨[0, 1, 2, 3, 4, 5, 6, 7]⟩ : FastBox).vertices.length = 8 ∧
      ∀ k < 8, (⟨[0, 1, 2, 3, 4, 5, 6, 7]⟩ : FastBox).vertex k ≠ -1) :=
  ⟨by decide!, createGrid_complete unitGrid [⟨0, 0, 0⟩] (0, ⟨[0, 1, 2, 3, 4, 5, 6, 7]⟩) (by decide!)⟩

/-- C3, counterexample. For a bounding box of extent 2043 x 0 x 0 and voxel size 1,
`calcIndices` gives `max_index = 2048`, `max_index_x = 2044`; the coordinates
`(0, 0, 0)` and `(1024, 0, 0)` are within the counts and have the same key,
because `1024 * 2048 * 2048 = 2 ^ 32` wraps to 0 in `int`. -/
theorem hashValue_collision :
    ((0 : ℚ) ≤ 2043 ∧ (0 : ℚ) ≤ 0 ∧ (0 : ℚ) < 1) ∧
    calcIndices 2043 0 0 1 = ⟨2048, 4194304, 2044, 2, 3⟩ ∧
    hashValue (calcIndices 2043 0 0 1) 0 0 0 = hashValue (calcIndices 2043 0 0 1) 1024 0 0 ∧
    ¬ KeysInjective (calcIndices 2043 0 0 1) := by
  have hI : calcIndices 2043 0 0 1 = ⟨2048, 4194304, 2044, 2, 3⟩ := by decide!
  have hkey : hashValue (calcIndices 2043 0 0 1) 0 0 0 =
      hashValue (calcIndices 2043 0 0 1) 1024 0 0 := by decide!
  refine ⟨by norm_num, hI, hkey, ?_⟩
  intro hinj
  have := hinj 0 0 0 1024 0 0 (by rw [hI]; decide) (by rw [hI]; decide) (by rw [hI]; decide)
    (by rw [hI]; decide) (by rw [hI]; decide) (by rw [hI]; decide) hkey
  exact absurd this (by decide)

/-- C3, amended. Hash-key injectivity without overflow, for the indices that
`calcIndices` stores when the packing does not overflow
(`max_index_x * max_index * max_index < 2 ^ 31`): two voxel coordinates within the
per-axis counts that have the same key are equal
* whatever the rounding of the float operations, if the stored counts satisfy
  `max_index_y ≤ max_index` and `max_index_z ≤ max_index`;
* for non-negative extents and a voxel size > 0, if the float operations that
  `calcIndices` performs round with a relative error of at most `2 ^ -24`;
* for non-negative extents and a voxel size > 0 in exact arithmetic. -/
theorem hashValue_injective_without_overflow (F : FloatOps)
    (x_size y_size z_size voxelsize : ℚ)
    (hsmall : (calcIndicesWith F x_size y_size z_size voxelsize).max_index_x *
      (calcIndicesWith F x_size y_size z_size voxelsize).max_index *
      (calcIndicesWith F x_size y_size z_size voxelsize).max_index < 2 ^ 31) :
    ((calcIndicesWith F x_size y_size z_size voxelsize).max_index_y ≤
        (calcIndicesWith F x_size y_size z_size voxelsize).max_index →
      (calcIndicesWith F x_size y_size z_size voxelsize).max_index_z ≤
        (calcIndicesWith F x_size y_size z_size voxelsize).max_index →
      KeysInjective (calcIndicesWith F x_size y_size z_size voxelsize)) ∧
    (RoundsWithin (1 / 2 ^ 24) F x_size y_size z_size voxelsize →
      0 ≤ x_size → 0 ≤ y_size → 0 ≤ z_size → 0 < voxelsize →
      KeysInjective (calcIndicesWith F x_size y_size z_size voxelsize)) ∧
    (0 ≤ x_size → 0 ≤ y_size → 0 ≤ z_size → 0 < voxelsize →
      (calcIndices x_size y_size z_size voxelsize).max_index_x *
        (calcIndices x_size y_size z_size voxelsize).max_index *
        (calcIndices x_size y_size z_size voxelsize).max_index < 2 ^ 31 →
      KeysInjective (calcIndices x_size y_size z_size voxelsize)) := by
  refine ⟨fun hy hz => keysInjective_of_margins _ rfl hy hz hsmall, ?_,
    fun hx _ _ hvs hs => keysInjective_of_small x_size y_size z_size voxelsize hx hvs hs⟩
  intro hF hx hy hz hvs
  obtain ⟨hmy, hmz⟩ :=
    margins_of_roundsWithin F x_size y_size z_size voxelsize hF hx hy hz hvs hsmall
  exact keysInjective_of_margins _ rfl hmy hmz hsmall

/-- C3 amended, with results rounded to 24 significant bits: at the extents
0.3f x 0 x 0 and the voxel size 0.1f the stored indices are 8, 64, 4, 2, 3
(without rounding `max_index` is 9 and `max_index_x` is 5), and at the extents
0 x 0 x 3.1000001f and the voxel size 0.025f `max_index` is 129 and
`max_index_z` is 128. -/
theorem hashValue_injective_without_overflow_witness :
    (calcIndicesWith singleOps (5033165 / 16777216) 0 0 (13421773 / 134217728) =
        ⟨8, 64, 4, 2, 3⟩ ∧
      calcIndices (5033165 / 16777216) 0 0 (13421773 / 134217728) = ⟨9, 81, 5, 2, 3⟩ ∧
      RoundsWithin (1 / 2 ^ 24) singleOps (5033165 / 16777216) 0 0 (13421773 / 134217728) ∧
      KeysInjective
        (calcIndicesWith singleOps (5033165 / 16777216) 0 0 (13421773 / 134217728)) ∧
      KeysInjective (calcIndices (5033165 / 16777216) 0 0 (13421773 / 134217728))) ∧
    (calcIndicesWith singleOps 0 0 (13002343 / 4194304) (13421773 / 536870912) =
        ⟨129, 16641, 1, 2, 128⟩ ∧
      KeysInjective
        (calcIndicesWith singleOps 0 0 (13002343 / 4194304) (13421773 / 536870912))) :=
  ⟨⟨by decide!, by decide!, singleOps_roundsWithin _ _ _ _,
    (hashValue_injective_without_overflow singleOps (5033165 / 16777216) 0 0
      (13421773 / 134217728) (by decide!)).2.1 (singleOps_roundsWithin _ _ _ _)
      (by norm_num) (by norm_num) (by norm_num) (by norm_num),
    (hashValue_injective_without_overflow singleOps (5033165 / 16777216) 0 0
      (13421773 / 134217728) (by decide!)).2.2
      (by norm_num) (by norm_num) (by norm_num) (by norm_num) (by decide!)⟩,
   ⟨by decide!,
    (hashValue_injective_without_overflow singleOps 0 0 (13002343 / 4194304)
      (13421773 / 536870912) (by decide!)).1 (by decide!) (by decide!)⟩⟩

/-- C4. Every quadruple `(dx, dy, dz, q)` of row `k` of `shared_vertex_table`
names a corner that coincides with corner `k`: `q` is a corner number,
`2 * (dx, dy, dz) + box_creation_table[q] = box_creation_table[k]`, and so corner
`q` of the cell at `(x + dx, y + dy, z + dz)` is corner `k` of the cell at
`(x, y, z)`. -/
theorem shared_vertex_table_sound (k : Fin 8) (i : Fin 7) (x y z : Int) :
    (0 ≤ (sharedEntry k i).2.2.2 ∧ (sharedEntry k i).2.2.2 < 8) ∧
    (2 * (sharedEntry k i).1 + tableAt box_creation_table (sharedEntry k i).2.2.2.toNat 0
        = tableAt box_creation_table k 0 ∧
     2 * (sharedEntry k i).2.1 + tableAt box_creation_table (sharedEntry k i).2.2.2.toNat 1
        = tableAt box_creation_table k 1 ∧
     2 * (sharedEntry k i).2.2.1 + tableAt box_creation_table (sharedEntry k i).2.2.2.toNat 2
        = tableAt box_creation_table k 2) ∧
    corner (x + (sharedEntry k i).1, y + (sharedEntry k i).2.1, z + (sharedEntry k i).2.2.1)
        (sharedEntry k i).2.2.2.toNat = corner (x, y, z) k := by
  have h : ∀ (k : Fin 8) (i : Fin 7),
      (0 ≤ (sharedEntry k i).2.2.2 ∧ (sharedEntry k i).2.2.2 < 8) ∧
      (2 * (sharedEntry k i).1 + tableAt box_creation_table (sharedEntry k i).2.2.2.toNat 0
          = tableAt box_creation_table k 0 ∧
       2 * (sharedEntry k i).2.1 + tableAt box_creation_table (sharedEntry k i).2.2.2.toNat 1
          = tableAt box_creation_table k 1 ∧
       2 * (sharedEntry k i).2.2.1 + tableAt box_creation_table (sharedEntry k i).2.2.2.toNat 2
          = tableAt box_creation_table k 2) := by decide
  obtain ⟨hq, h0, h1, h2⟩ := h k i
  refine ⟨hq, ⟨h0, h1, h2⟩, ?_⟩
  simp only [corner, Prod.mk.injEq]
  refine ⟨?_, ?_, ?_⟩ <;> omega

/-- C5. Completeness of `shared_vertex_table`: if corner `q` of the cell at offset
`(dx, dy, dz) ≠ (0, 0, 0)` coincides with corner `k`
(`2 * (dx, dy, dz) + box_creation_table[q] = box_creation_table[k]`), the quadruple
`(dx, dy, dz, q)` occurs exactly once in row `k`. Row `k` has seven quadruples,
their offsets are pairwise different and none is `(0, 0, 0)`, and every corner
`q' ≠ k` occurs exactly once as the corner of a quadruple. -/
theorem shared_vertex_table_complete (k q : Fin 8) (dx dy dz : Int)
    (hd : (dx, dy, dz) ≠ (0, 0, 0))
    (h0 : 2 * dx + tableAt box_creation_table q 0 = tableAt box_creation_table k 0)
    (h1 : 2 * dy + tableAt box_creation_table q 1 = tableAt box_creation_table k 1)
    (h2 : 2 * dz + tableAt box_creation_table q 2 = tableAt box_creation_table k 2) :
    (sharedRow k).count (dx, dy, dz, ((q : Nat) : Int)) = 1 ∧
    (sharedRow k).length = 7 ∧
    ((sharedRow k).map (fun e => (e.1, e.2.1, e.2.2.1))).Nodup ∧
    ((0, 0, 0) : Coord) ∉ (sharedRow k).map (fun e => (e.1, e.2.1, e.2.2.1)) ∧
    ∀ q' : Fin 8, q' ≠ k →
      ((sharedRow k).map (fun e => e.2.2.2)).count ((q' : Nat) : Int) = 1 := by
  have hrow : ∀ k : Fin 8, (sharedRow k).length = 7 ∧
      ((sharedRow k).map (fun e => (e.1, e.2.1, e.2.2.1))).Nodup ∧
      ((0, 0, 0) : Coord) ∉ (sharedRow k).map (fun e => (e.1, e.2.1, e.2.2.1)) ∧
      ∀ q' : Fin 8, q' ≠ k →
        ((sharedRow k).map (fun e => e.2.2.2)).count ((q' : Nat) : Int) = 1 := by decide
  have hcount : ∀ k q : Fin 8, k ≠ q → (sharedRow k).count
      ((tableAt box_creation_table k 0 - tableAt box_creation_table q 0) / 2,
       (tableAt box_creation_table k 1 - tableAt box_creation_table q 1) / 2,
       (tableAt box_creation_table k 2 - tableAt box_creation_table q 2) / 2,
       ((q : Nat) : Int)) = 1 := by decide
  refine ⟨?_, hrow k⟩
  have hkq : k ≠ q := by
    rintro rfl
    apply hd
    have e0 : dx = 0 := by omega
    have e1 : dy = 0 := by omega
    have e2 : dz = 0 := by omega
    rw [e0, e1, e2]
  have e0 : dx = (tableAt box_creation_table k 0 - tableAt box_creation_table q 0) / 2 := by
    omega
  have e1 : dy = (tableAt box_creation_table k 1 - tableAt box_creation_table q 1) / 2 := by
    omega
  have e2 : dz = (tableAt box_creation_table k 2 - tableAt box_creation_table q 2) / 2 := by
    omega
  rw [e0, e1, e2]
  exact hcount k q hkq

/-- C5, at row 5 and its first quadruple `{+1, 0, +1, 0}`. -/
theorem shared_vertex_table_complete_witness :
    ((1, 0, 1) : Coord) ≠ (0, 0, 0) ∧
    (2 * 1 + tableAt box_creation_table (0 : Fin 8) 0 = tableAt box_creation_table (5 : Fin 8) 0 ∧
     2 * 0 + tableAt box_creation_table (0 : Fin 8) 1 = tableAt box_creation_table (5 : Fin 8) 1 ∧
     2 * 1 + tableAt box_creation_table (0 : Fin 8) 2 = tableAt box_creation_table (5 : Fin 8) 2) ∧
    (sharedRow (5 : Fin 8)).count (1, 0, 1, (((0 : Fin 8) : Nat) : Int)) = 1 :=
  ⟨by decide, by decide,
   (shared_vertex_table_complete 5 0 1 0 1 (by decide) (by decide) (by decide) (by decide)).1⟩

/-- C6. First-match semantics of `findQueryPoint`: the result is the slot of the
first candidate of the row, in table order, whose cell is in `cells` and whose
slot is not -1; the result is -1 exactly when no candidate is resolved; and a
result other than -1 is always the slot of such a first candidate. -/
theorem findQueryPoint_first_match (E : Env) (cells : List (Int × FastBox))
    (position : Fin 8) (x y z : Int) :
    (∀ i < 7, ∀ b : FastBox,
      find cells (E.hashValue (x + (sharedEntry position i).1)
        (y + (sharedEntry position i).2.1) (z + (sharedEntry position i).2.2.1)) = some b →
      b.vertex (sharedEntry position i).2.2.2.toNat ≠ -1 →
      (∀ j < i, ¬ Resolved E cells x y z (sharedEntry position j)) →
      findQueryPoint E cells position x y z = b.vertex (sharedEntry position i).2.2.2.toNat) ∧
    (findQueryPoint E cells position x y z = -1 ↔
      ∀ i < 7, ¬ Resolved E cells x y z (sharedEntry position i)) ∧
    (findQueryPoint E cells position x y z ≠ -1 →
      ∃ i < 7, ∃ b : FastBox,
        find cells (E.hashValue (x + (sharedEntry position i).1)
          (y + (sharedEntry position i).2.1) (z + (sharedEntry position i).2.2.1)) = some b ∧
        b.vertex (sharedEntry position i).2.2.2.toNat ≠ -1 ∧
        findQueryPoint E cells position x y z = b.vertex (sharedEntry position i).2.2.2.toNat ∧
        ∀ j < i, ¬ Resolved E cells x y z (sharedEntry position j)) :=
  ⟨fun i hi b hb hv hfirst => findQueryPoint_first E cells position x y z i hi b hb hv hfirst,
   findQueryPoint_eq_neg_one_iff E cells position x y z,
   findQueryPoint_ne_neg_one E cells position x y z⟩

/-- C7. Index stability: processing one more input point, from any state and for
any key function, leaves every stored cell as it is (the lookup of a key that
was present gives the same box) and only appends to `query_points`. -/
theorem processPoint_index_stable (E : Env) (s : GridState) (p : Vertex) :
    (∀ (h : Int) (b : FastBox), find s.cells h = some b →
      find (processPoint E s p).cells h = some b) ∧
    s.query_points <+: (processPoint E s p).query_points := by
  rw [processPoint_eq_visitAll]
  exact visitAll_frame E s _

/-- C8. Idempotence on existing cells: a point whose voxel coordinate is that of
a point already processed changes neither `cells` nor `query_points` (nor the
counter). -/
theorem createGrid_idempotent (E : Env) (ps : List Vertex) (p : Vertex)
    (h : ∃ p' ∈ ps, pointIndex E p' = pointIndex E p) :
    createGrid E (ps ++ [p]) = createGrid E ps :=
  createGridFrom_revisit E _ ps p h

/-- C8, at two points of the voxel `(0, 0, 0)`. -/
theorem createGrid_idempotent_witness :
    (∃ p' ∈ [(⟨0, 0, 0⟩ : Vertex)], pointIndex unitGrid p' = pointIndex unitGrid ⟨1 / 2, 1 / 3, 0⟩) ∧
    createGrid unitGrid ([⟨0, 0, 0⟩] ++ [⟨1 / 2, 1 / 3, 0⟩]) = createGrid unitGrid [⟨0, 0, 0⟩] :=
  ⟨⟨⟨0, 0, 0⟩, List.mem_singleton.mpr rfl, by decide!⟩,
   createGrid_idempotent unitGrid [⟨0, 0, 0⟩] ⟨1 / 2, 1 / 3, 0⟩
     ⟨⟨0, 0, 0⟩, List.mem_singleton.mpr rfl, by decide!⟩⟩

/-- C9. Single-point scenario: when the rows of `HGCreateTable` are the eight
cells of a 2x2x2 block and the key function is injective on the coordinates
created or probed, one input point gives exactly 8 cells and exactly 27 query
points. -/
theorem createGrid_single_point (E : Env) (p : Vertex) (o : Coord)
    (hHG : ((List.range 8).map (createOffset E)).Perm (blockCells o))
    (hinj : HashInjOn E (touchedCoords E [p])) :
    (createGrid E [p]).cells.length = 8 ∧ (createGrid E [p]).query_points.length = 27 :=
  createGrid_block_count E p o hHG hinj

/-- C9, at a point at the origin with voxel size 1. -/
theorem createGrid_single_point_witness :
    ((List.range 8).map (createOffset unitGrid)).Perm (blockCells (0, 0, 0)) ∧
    HashInjOn unitGrid (touchedCoords unitGrid [⟨0, 0, 0⟩]) ∧
    (createGrid unitGrid [⟨0, 0, 0⟩]).cells.length = 8 ∧
    (createGrid unitGrid [⟨0, 0, 0⟩]).query_points.length = 27 :=
  ⟨unitGrid_createOffsets, unitGrid_injOn_origin,
   createGrid_single_point unitGrid ⟨0, 0, 0⟩ (0, 0, 0) unitGrid_createOffsets
     unitGrid_injOn_origin⟩

/-- C10, counterexample. Two points inside the voxel `(0, 0, 0)` of `unitGrid`:
`createGrid` stores 8 cells and 27 query points, not 1 cell and 8 query points. -/
theorem createGrid_two_points_not_one_cell :
    pointIndex unitGrid ⟨1 / 4, 1 / 4, 1 / 4⟩ = pointIndex unitGrid ⟨1 / 2, 1 / 3, 3 / 4⟩ ∧
    (createGrid unitGrid [⟨1 / 4, 1 / 4, 1 / 4⟩, ⟨1 / 2, 1 / 3, 3 / 4⟩]).cells.length = 8 ∧
    (createGrid unitGrid [⟨1 / 4, 1 / 4, 1 / 4⟩, ⟨1 / 2, 1 / 3, 3 / 4⟩]).query_points.length = 27 ∧
    ¬ ((createGrid unitGrid [⟨1 / 4, 1 / 4, 1 / 4⟩, ⟨1 / 2, 1 / 3, 3 / 4⟩]).cells.length = 1 ∧
      (createGrid unitGrid
        [⟨1 / 4, 1 / 4, 1 / 4⟩, ⟨1 / 2, 1 / 3, 3 / 4⟩]).query_points.length = 8) := by
  refine ⟨by decide!, by decide!, by decide!, by decide!⟩

/-- C10, amended. Two points with the same voxel coordinate give the grid of the
first point alone; when the rows of `HGCreateTable` are the eight cells of a
2x2x2 block and the key function is injective on the coordinates created or
probed, that is exactly 8 cells and exactly 27 query points. -/
theorem createGrid_two_points_same_cell (E : Env) (p q : Vertex) (o : Coord)
    (hidx : pointIndex E p = pointIndex E q)
    (hHG : ((List.range 8).map (createOffset E)).Perm (blockCells o))
    (hinj : HashInjOn E (touchedCoords E [p, q])) :
    createGrid E [p, q] = createGrid E [p] ∧
    (createGrid E [p, q]).cells.length = 8 ∧
    (createGrid E [p, q]).query_points.length = 27 := by
  have hsame : createGrid E [p, q] = createGrid E [p] :=
    createGridFrom_revisit E _ [p] q ⟨p, List.mem_singleton.mpr rfl, hidx⟩
  have hinj' : HashInjOn E (touchedCoords E [p]) :=
    hashInjOn_of_subset (touchedCoords_subset_append E [p] [q]) hinj
  rw [hsame]
  exact ⟨rfl, createGrid_block_count E p o hHG hinj'⟩

/-- C10 amended, at two points inside the voxel `(0, 0, 0)`. -/
theorem createGrid_two_points_same_cell_witness :
    pointIndex unitGrid ⟨1 / 4, 1 / 4, 1 / 4⟩ = pointIndex unitGrid ⟨1 / 2, 1 / 3, 3 / 4⟩ ∧
    ((List.range 8).map (createOffset unitGrid)).Perm (blockCells (0, 0, 0)) ∧
    HashInjOn unitGrid (touchedCoords unitGrid [⟨1 / 4, 1 / 4, 1 / 4⟩, ⟨1 / 2, 1 / 3, 3 / 4⟩]) ∧
    (createGrid unitGrid [⟨1 / 4, 1 / 4, 1 / 4⟩, ⟨1 / 2, 1 / 3, 3 / 4⟩] =
        createGrid unitGrid [⟨1 / 4, 1 / 4, 1 / 4⟩] ∧
      (createGrid unitGrid [⟨1 / 4, 1 / 4, 1 / 4⟩, ⟨1 / 2, 1 / 3, 3 / 4⟩]).cells.length = 8 ∧
      (createGrid unitGrid
        [⟨1 / 4, 1 / 4, 1 / 4⟩, ⟨1 / 2, 1 / 3, 3 / 4⟩]).query_points.length = 27) :=
  ⟨by decide!, unitGrid_createOffsets, unitGrid_injOn _ (by decide!),
   createGrid_two_points_same_cell unitGrid _ _ (0, 0, 0) (by decide!) unitGrid_createOffsets
     (unitGrid_injOn _ (by decide!))⟩

/-- C11, counterexample. Input points `(0, 0, 0)`, `(1024, 0, 0)`, `(2043, 0, 0)` with
voxel size 1 and the key packing for their bounding box (`max_index = 2048`):
the coordinate `(1024, 0, 0)` of the second point has the key of the cell created
for `(0, 0, 0)`, and so have its seven neighbours; `createGrid` creates no cell
for the second point and ends with the grid of the other two points, 16 cells. -/
theorem createGrid_collision_absorbed :
    pointIndex wideGrid ⟨0, 0, 0⟩ = (0, 0, 0) ∧
    pointIndex wideGrid ⟨1024, 0, 0⟩ = (1024, 0, 0) ∧
    keyOf wideGrid (1024, 0, 0) = keyOf wideGrid (0, 0, 0) ∧
    find (createGrid wideGrid [⟨0, 0, 0⟩]).cells (keyOf wideGrid (1024, 0, 0)) =
      some ⟨[0, 1, 2, 3, 4, 5, 6, 7]⟩ ∧
    createGrid wideGrid [⟨0, 0, 0⟩, ⟨1024, 0, 0⟩, ⟨2043, 0, 0⟩] =
      createGrid wideGrid [⟨0, 0, 0⟩, ⟨2043, 0, 0⟩] ∧
    (createGrid wideGrid [⟨0, 0, 0⟩, ⟨1024, 0, 0⟩, ⟨2043, 0, 0⟩]).cells.length = 16 := by
  refine ⟨by decide!, by decide!, by decide!, by decide!, by decide!, by decide!⟩

/-- C11, amended. `createGrid` has no collision check: when it reaches a voxel
coordinate whose key is in `cells`, for whichever coordinate that cell was
created, the round of the loop `for j` changes nothing and the run goes on; and
a point all of whose eight keys are keys of coordinates visited before (the
same or different ones) leaves `cells` and `query_points` as they are. -/
theorem visitCell_occupied_key (E : Env) (index_x index_y index_z : Int) (s : GridState)
    (j : Nat) (b : FastBox)
    (h : find s.cells (E.hashValue (index_x + tableAt E.HGCreateTable j 0)
      (index_y + tableAt E.HGCreateTable j 1) (index_z + tableAt E.HGCreateTable j 2)) = some b) :
    visitCell E index_x index_y index_z s j = s ∧
    ∀ (ps : List Vertex) (p : Vertex),
      (∀ c ∈ cellsAround E (pointIndex E p), ∃ c' ∈ cellCoords E ps, keyOf E c' = keyOf E c) →
      createGrid E (ps ++ [p]) = createGrid E ps :=
  ⟨visitCell_of_some E index_x index_y index_z s j b h,
   fun ps p hkeys => createGrid_absorbs E ps p hkeys⟩

/-- C11 amended, at the coordinate `(1024, 0, 0)` after the point `(0, 0, 0)`. -/
theorem visitCell_occupied_key_witness :
    find (createGrid wideGrid [⟨0, 0, 0⟩]).cells
      (wideGrid.hashValue (1024 + tableAt wideGrid.HGCreateTable 0 0)
        (0 + tableAt wideGrid.HGCreateTable 0 1) (0 + tableAt wideGrid.HGCreateTable 0 2)) =
      some ⟨[0, 1, 2, 3, 4, 5, 6, 7]⟩ ∧
    visitCell wideGrid 1024 0 0 (createGrid wideGrid [⟨0, 0, 0⟩]) 0 =
      createGrid wideGrid [⟨0, 0, 0⟩] :=
  ⟨by decide!,
   (visitCell_occupied_key wideGrid 1024 0 0 (createGrid wideGrid [⟨0, 0, 0⟩]) 0
     ⟨[0, 1, 2, 3, 4, 5, 6, 7]⟩ (by decide!)).1⟩

/-- C12, counterexample. With voxel size -1 and a bounding box of extent 4 x 4 x 4,
`calcIndices` computes `max_index = 1` and the per-axis counts -3, -2, -1, and
`createGrid` builds cells for a point with that voxel size: 4 cells and 11
query points. -/
theorem setup_accepts_negative_voxelsize :
    negativeGrid.voxelsize = -1 ∧
    calcIndices 4 4 4 negativeGrid.voxelsize = ⟨1, 1, -3, -2, -1⟩ ∧
    (createGrid negativeGrid [⟨1, 1, 1⟩]).cells.length = 4 ∧
    (createGrid negativeGrid [⟨1, 1, 1⟩]).query_points.length = 11 := by
  refine ⟨rfl, by decide!, by decide!, by decide!⟩

/-- C12, amended. A voxel size of 0 or below is used as it is, whatever the
rounding of the float operations: `calcIndices` stores
`max_index = (int)ceil((max_size + 5 * voxelsize) / voxelsize)`, its `int`
square, and the per-axis counts `(int)ceil(size / voxelsize)` plus 1, 2, 3
computed with it, and for whatever index the loop over the points has computed,
the loop `for j` of `createGrid` ends with a cell stored under the key of each
of the eight coordinates `index + HGCreateTable[j]`, the cells and query points
stored before unchanged; at the end of `createGrid`, run with whatever indices
for the points, a cell is stored under each of these keys of every point. -/
theorem setup_nonpositive_voxelsize (F : FloatOps) (E : Env) (x_size y_size z_size : ℚ)
    (s : GridState) (index_x index_y index_z : Int) (indices : List Coord)
    (_hvs : E.voxelsize ≤ 0) :
    ((calcIndicesWith F x_size y_size z_size E.voxelsize).max_index =
        F.ceilDiv (F.add (max (max x_size y_size) z_size) (F.mul 5 E.voxelsize)) E.voxelsize ∧
     (calcIndicesWith F x_size y_size z_size E.voxelsize).max_index_square =
        wrap32 ((calcIndicesWith F x_size y_size z_size E.voxelsize).max_index *
          (calcIndicesWith F x_size y_size z_size E.voxelsize).max_index) ∧
     (calcIndicesWith F x_size y_size z_size E.voxelsize).max_index_x =
        F.ceilDiv x_size E.voxelsize + 1 ∧
     (calcIndicesWith F x_size y_size z_size E.voxelsize).max_index_y =
        F.ceilDiv y_size E.voxelsize + 2 ∧
     (calcIndicesWith F x_size y_size z_size E.voxelsize).max_index_z =
        F.ceilDiv z_size E.voxelsize + 3) ∧
    (∀ j < 8, ∃ b : FastBox,
      find ((List.range 8).foldl (visitCell E index_x index_y index_z) s).cells
        (E.hashValue (index_x + tableAt E.HGCreateTable j 0)
          (index_y + tableAt E.HGCreateTable j 1)
          (index_z + tableAt E.HGCreateTable j 2)) = some b) ∧
    (∀ (h : Int) (b : FastBox), find s.cells h = some b →
      find ((List.range 8).foldl (visitCell E index_x index_y index_z) s).cells h = some b) ∧
    s.query_points <+:
      ((List.range 8).foldl (visitCell E index_x index_y index_z) s).query_points ∧
    (∀ idx ∈ indices, ∀ j < 8, ∃ b : FastBox,
      find (createGridAt E ⟨[], [], 0⟩ indices).cells
        (E.hashValue (idx.1 + tableAt E.HGCreateTable j 0)
          (idx.2.1 + tableAt E.HGCreateTable j 1)
          (idx.2.2 + tableAt E.HGCreateTable j 2)) = some b) :=
  ⟨⟨rfl, rfl, rfl, rfl, rfl⟩,
   (visitCell_rounds_present E index_x index_y index_z s).1,
   (visitCell_rounds_present E index_x index_y index_z s).2.1,
   (visitCell_rounds_present E index_x index_y index_z s).2.2,
   createGridAt_present E ⟨[], [], 0⟩ indices⟩

/-- C12 amended, at the voxel size -0.05f with the extents 1 x 0 x 0 and results
rounded to 24 significant bits (`max_index = -15`, `max_index_x = -19`), at voxel
size -1 for the index `(-1, -1, -1)`, and at voxel size 0 for the index
`(0, 0, 0)`, both in the empty grid. -/
theorem setup_nonpositive_voxelsize_witness :
    calcIndicesWith singleOps 1 0 0 (-13421773 / 268435456) = ⟨-15, 225, -19, 2, 3⟩ ∧
    (negativeGrid.voxelsize ≤ 0 ∧
      ∀ j < 8, ∃ b : FastBox,
        find ((List.range 8).foldl (visitCell negativeGrid (-1) (-1) (-1)) ⟨[], [], 0⟩).cells
          (negativeGrid.hashValue (-1 + tableAt negativeGrid.HGCreateTable j 0)
            (-1 + tableAt negativeGrid.HGCreateTable j 1)
            (-1 + tableAt negativeGrid.HGCreateTable j 2)) = some b) ∧
    ((⟨unitGrid.hashValue, unitGrid.calcIndex, unitGrid.HGCreateTable, 0, ⟨0, 0, 0⟩⟩ :
        Env).voxelsize ≤ 0 ∧
      ∀ j < 8, ∃ b : FastBox,
        find ((List.range 8).foldl
          (visitCell ⟨unitGrid.hashValue, unitGrid.calcIndex, unitGrid.HGCreateTable, 0,
            ⟨0, 0, 0⟩⟩ 0 0 0) ⟨[], [], 0⟩).cells
          (unitGrid.hashValue (0 + tableAt unitGrid.HGCreateTable j 0)
            (0 + tableAt unitGrid.HGCreateTable j 1)
            (0 + tableAt unitGrid.HGCreateTable j 2)) = some b) :=
  ⟨by decide!,
   ⟨by decide!,
    (setup_nonpositive_voxelsize singleOps negativeGrid 1 0 0 ⟨[], [], 0⟩ (-1) (-1) (-1)
      [(-1, -1, -1)] (by decide!)).2.1⟩,
   ⟨le_refl _,
    (setup_nonpositive_voxelsize singleOps
      ⟨unitGrid.hashValue, unitGrid.calcIndex, unitGrid.HGCreateTable, 0, ⟨0, 0, 0⟩⟩
      1 0 0 ⟨[], [], 0⟩ 0 0 0 [(0, 0, 0)] (le_refl _)).2.1⟩⟩

/-- C13. Vertex counter threading in `createMesh`: the call of `calcApproximation`
for cell number `i` receives the counter returned by the pass over the cells
before it, which is 0 for the first cell and the value returned by the call for
cell `i - 1` otherwise; and for every polygonizer that numbers the vertices it
emits from the counter it receives and returns the counter plus their number,
the vertex indices of the mesh after the pass (started without vertices) are
strictly increasing and pairwise different. -/
theorem createMesh_counter_threading {Mesh : Type}
    (calcApproximation : FastBox → List QueryPoint → Mesh → Int → Mesh × Int)
    (emitted : Mesh → List Int) (cells : List (Int × FastBox))
    (query_points : List QueryPoint) (mesh : Mesh)
    (hP : NumbersFromCounter calcApproximation emitted) (hmesh : emitted mesh = []) :
    (createMesh calcApproximation [] query_points mesh).2 = 0 ∧
    (createMeshCounters calcApproximation query_points cells (mesh, 0)).length = cells.length ∧
    (∀ (i : Nat) (e : Int × FastBox), cells[i]? = some e →
      (createMeshCounters calcApproximation query_points cells (mesh, 0))[i]? =
        some (createMesh calcApproximation (cells.take i) query_points mesh).2 ∧
      createMesh calcApproximation (cells.take (i + 1)) query_points mesh =
        calcApproximation e.2 query_points
          (createMesh calcApproximation (cells.take i) query_points mesh).1
          (createMesh calcApproximation (cells.take i) query_points mesh).2) ∧
    (emitted (createMesh calcApproximation cells query_points mesh).1).Pairwise (· < ·) ∧
    (emitted (createMesh calcApproximation cells query_points mesh).1).Nodup := by
  obtain ⟨hlen, hth⟩ := createMeshCounters_thread calcApproximation query_points cells (mesh, 0)
  obtain ⟨n, _, he⟩ := createMesh_emitted calcApproximation emitted hP cells query_points mesh hmesh
  have hinc : (emitted (createMesh calcApproximation cells query_points mesh).1).Pairwise
      (· < ·) := by
    rw [he]
    exact range_map_increasing n
  refine ⟨rfl, hlen, ?_, hinc, hinc.imp (fun {a b} hab => ne_of_lt hab)⟩
  intro i e hi
  refine ⟨hth i e hi, ?_⟩
  rw [List.take_succ, hi]
  exact createMesh_append calcApproximation (cells.take i) e query_points mesh

/-- C13, at the cells of the grid of one point and a polygonizer that emits three
vertices for every cell. -/
theorem createMesh_counter_threading_witness :
    NumbersFromCounter threeVertexPolygonizer (fun m : List Int => m) ∧
    (createMesh threeVertexPolygonizer (createGrid unitGrid [⟨0, 0, 0⟩]).cells
      (createGrid unitGrid [⟨0, 0, 0⟩]).query_points []).1.Pairwise (· < ·) ∧
    (createMesh threeVertexPolygonizer (createGrid unitGrid [⟨0, 0, 0⟩]).cells
      (createGrid unitGrid [⟨0, 0, 0⟩]).query_points []).1.Nodup :=
  ⟨threeVertexPolygonizer_numbers,
   (createMesh_counter_threading threeVertexPolygonizer (fun m : List Int => m)
     (createGrid unitGrid [⟨0, 0, 0⟩]).cells (createGrid unitGrid [⟨0, 0, 0⟩]).query_points []
     threeVertexPolygonizer_numbers rfl).2.2.2⟩

/-- C14. Slot-position consistency, in exact rational arithmetic and with the key
function injective on the coordinates created or probed: after `createGrid`
the cell of every visited coordinate `c` is stored under its key, and for every
corner `k` its slot is the index of a query point whose position is
`v_min + c * voxelsize + box_creation_table[k] * (voxelsize / 2)`, componentwise,
whether the corner was allocated for this cell or found in a neighbour. -/
theorem createGrid_slot_positions (E : Env) (points : List Vertex)
    (hinj : HashInjOn E (touchedCoords E points)) (c : Coord)
    (hc : c ∈ cellCoords E points) :
    ∃ b : FastBox, find (createGrid E points).cells (keyOf E c) = some b ∧
      ∀ k < 8, ∃ (n : Nat) (qp : QueryPoint), b.vertex k = (n : Int) ∧
        (createGrid E points).query_points[n]? = some qp ∧
        qp.position.x = E.v_min.x + (c.1 : ℚ) * E.voxelsize +
          (tableAt box_creation_table k 0 : ℚ) * (E.voxelsize / 2) ∧
        qp.position.y = E.v_min.y + (c.2.1 : ℚ) * E.voxelsize +
          (tableAt box_creation_table k 1 : ℚ) * (E.voxelsize / 2) ∧
        qp.position.z = E.v_min.z + (c.2.2 : ℚ) * E.voxelsize +
          (tableAt box_creation_table k 2 : ℚ) * (E.voxelsize / 2) := by
  obtain ⟨C, hI, hC⟩ := createGrid_pos E points hinj
  obtain ⟨b, hb, hslots⟩ := hI.slots c ((hC c).mpr hc)
  refine ⟨b, hb, ?_⟩
  intro k hk
  obtain ⟨n, qp, hn, hq, hpos⟩ := hslots k hk
  refine ⟨n, qp, hn, hq, ?_, ?_, ?_⟩
  · rw [hpos]; rfl
  · rw [hpos]; rfl
  · rw [hpos]; rfl

/-- C14, at the cell `(1, 0, 0)` of the grid of a point at the origin. -/
theorem createGrid_slot_positions_witness :
    HashInjOn unitGrid (touchedCoords unitGrid [⟨0, 0, 0⟩]) ∧
    ((1, 0, 0) : Coord) ∈ cellCoords unitGrid [⟨0, 0, 0⟩] ∧
    ∃ b : FastBox, find (createGrid unitGrid [⟨0, 0, 0⟩]).cells (keyOf unitGrid (1, 0, 0)) =
        some b ∧
      ∀ k < 8, ∃ (n : Nat) (qp : QueryPoint), b.vertex k = (n : Int) ∧
        (createGrid unitGrid [⟨0, 0, 0⟩]).query_points[n]? = some qp ∧
        qp.position.x = unitGrid.v_min.x + (((1, 0, 0) : Coord).1 : ℚ) * unitGrid.voxelsize +
          (tableAt box_creation_table k 0 : ℚ) * (unitGrid.voxelsize / 2) ∧
        qp.position.y = unitGrid.v_min.y + (((1, 0, 0) : Coord).2.1 : ℚ) * unitGrid.voxelsize +
          (tableAt box_creation_table k 1 : ℚ) * (unitGrid.voxelsize / 2) ∧
        qp.position.z = unitGrid.v_min.z + (((1, 0, 0) : Coord).2.2 : ℚ) * unitGrid.voxelsize +
          (tableAt box_creation_table k 2 : ℚ) * (unitGrid.voxelsize / 2) :=
  ⟨unitGrid_injOn_origin, by decide!,
   createGrid_slot_positions unitGrid [⟨0, 0, 0⟩] unitGrid_injOn_origin (1, 0, 0) (by decide!)⟩

/-- C15. Cell set of `createGrid`: for every key function, a key is in `cells`
after `createGrid` exactly when it is the key of a coordinate
`idx(p) + HGCreateTable[j]` of an input point `p` and `j` in 0..7; every such
key is stored once. -/
theorem createGrid_cell_set (E : Env) (points : List Vertex) :
    (∀ h : Int, h ∈ (createGrid E points).cells.map Prod.fst ↔
      ∃ p ∈ points, ∃ j < 8,
        h = E.hashValue ((pointIndex E p).1 + tableAt E.HGCreateTable j 0)
          ((pointIndex E p).2.1 + tableAt E.HGCreateTable j 1)
          ((pointIndex E p).2.2 + tableAt E.HGCreateTable j 2)) ∧
    ((createGrid E points).cells.map Prod.fst).Nodup := by
  obtain ⟨hkeys, hnd⟩ := createGrid_keys E points
  refine ⟨fun h => ?_, hnd⟩
  rw [hkeys]
  simp only [cellCoords, cellsAround, createOffset, keyOf, List.mem_map, List.mem_flatMap,
    List.mem_range]
  constructor
  · rintro ⟨c, ⟨p, hp, j, hj, rfl⟩, rfl⟩
    exact ⟨p, hp, j, hj, rfl⟩
  · rintro ⟨p, hp, j, hj, rfl⟩
    exact ⟨_, ⟨p, hp, j, hj, rfl⟩, rfl⟩

/-- C16. Extent sizing in `calcIndices`, the `float` operations taken exactly: for
a voxel size > 0 and non-negative extents, `max_index` is
`ceil(max(x_size, y_size, z_size) / voxelsize) + 5`, `max_index_square` is the
`int` product `max_index * max_index`, which is the exact product whenever that
is below `2 ^ 31`, the per-axis counts are `ceil(size / voxelsize)` plus 1, 2
and 3, and they are smaller than `max_index` by at least 4, 3 and 2. -/
theorem calcIndices_extents (x_size y_size z_size voxelsize : ℚ)
    (hx : 0 ≤ x_size) (_hy : 0 ≤ y_size) (_hz : 0 ≤ z_size) (hvs : 0 < voxelsize) :
    (calcIndices x_size y_size z_size voxelsize).max_index =
      ⌈max (max x_size y_size) z_size / voxelsize⌉ + 5 ∧
    (calcIndices x_size y_size z_size voxelsize).max_index_square =
      wrap32 ((calcIndices x_size y_size z_size voxelsize).max_index *
        (calcIndices x_size y_size z_size voxelsize).max_index) ∧
    ((calcIndices x_size y_size z_size voxelsize).max_index *
        (calcIndices x_size y_size z_size voxelsize).max_index < 2 ^ 31 →
      (calcIndices x_size y_size z_size voxelsize).max_index_square =
        (calcIndices x_size y_size z_size voxelsize).max_index *
          (calcIndices x_size y_size z_size voxelsize).max_index) ∧
    ((calcIndices x_size y_size z_size voxelsize).max_index_x = ⌈x_size / voxelsize⌉ + 1 ∧
     (calcIndices x_size y_size z_size voxelsize).max_index_y = ⌈y_size / voxelsize⌉ + 2 ∧
     (calcIndices x_size y_size z_size voxelsize).max_index_z = ⌈z_size / voxelsize⌉ + 3) ∧
    ((calcIndices x_size y_size z_size voxelsize).max_index_x + 4 ≤
        (calcIndices x_size y_size z_size voxelsize).max_index ∧
     (calcIndices x_size y_size z_size voxelsize).max_index_y + 3 ≤
        (calcIndices x_size y_size z_size voxelsize).max_index ∧
     (calcIndices x_size y_size z_size voxelsize).max_index_z + 2 ≤
        (calcIndices x_size y_size z_size voxelsize).max_index) := by
  obtain ⟨hX, hbx, hby, hbz⟩ := calcIndices_bounds x_size y_size z_size voxelsize hx hvs
  refine ⟨calcIndices_max_index x_size y_size z_size voxelsize hvs, rfl, ?_, ⟨rfl, rfl, rfl⟩,
    hbx, hby, hbz⟩
  intro hsmall
  have hM0 : 0 < (calcIndices x_size y_size z_size voxelsize).max_index := by omega
  have h0 := (mul_pos hM0 hM0).le
  have hpow : (2 : Int) ^ 31 = 2147483648 := by norm_num
  rw [hpow] at hsmall
  show wrap32 ((calcIndices x_size y_size z_size voxelsize).max_index *
    (calcIndices x_size y_size z_size voxelsize).max_index) = _
  exact wrap32_of_range _ (by omega) (by omega)

/-- C16, at a bounding box of extent 4 x 3 x 2 with voxel size 1/2. -/
theorem calcIndices_extents_witness :
    ((0 : ℚ) ≤ 4 ∧ (0 : ℚ) ≤ 3 ∧ (0 : ℚ) ≤ 2 ∧ (0 : ℚ) < 1 / 2) ∧
    calcIndices 4 3 2 (1 / 2) = ⟨13, 169, 9, 8, 7⟩ ∧
    (calcIndices 4 3 2 (1 / 2)).max_index = ⌈max (max (4 : ℚ) 3) 2 / (1 / 2)⌉ + 5 ∧
    (calcIndices 4 3 2 (1 / 2)).max_index_square =
      (calcIndices 4 3 2 (1 / 2)).max_index * (calcIndices 4 3 2 (1 / 2)).max_index :=
  ⟨by norm_num, by decide!,
   (calcIndices_extents 4 3 2 (1 / 2) (by norm_num) (by norm_num) (by norm_num)
     (by norm_num)).1,
   (calcIndices_extents 4 3 2 (1 / 2) (by norm_num) (by norm_num) (by norm_num)
     (by norm_num)).2.2.1 (by decide!)⟩

/-- C17. Field evaluation pass: `calcQueryPointValues` keeps the length of
`query_points` and every position, and sets the distance of every entry to the
interpolator's distance at the entry's position (passed as the colour vertex
`ColorVertex(position, 0, 1, 0)`); the new sequence is the old one with exactly
this change. -/
theorem calcQueryPointValues_spec (distance : ColorVertex → ℚ)
    (query_points : List QueryPoint) :
    (calcQueryPointValues distance query_points).length = query_points.length ∧
    (calcQueryPointValues distance query_points).map QueryPoint.position =
      query_points.map QueryPoint.position ∧
    (∀ (i : Nat) (p : QueryPoint), query_points[i]? = some p →
      (calcQueryPointValues distance query_points)[i]? =
        some ⟨p.position, distance ⟨p.position, 0, 1, 0⟩⟩) ∧
    calcQueryPointValues distance query_points =
      query_points.map (fun p => ⟨p.position, distance ⟨p.position, 0, 1, 0⟩⟩) := by
  have h := calcQueryPointValues_eq_map distance query_points
  refine ⟨by rw [h, List.length_map], by rw [h, List.map_map]; rfl, ?_, h⟩
  intro i p hp
  rw [h, List.getElem?_map, hp]
  rfl

/-- C18. Slot indices are always in bounds, for every key function: the empty
start state satisfies `SlotsValid` (the counter `global_index` is the number of
query points and every slot of every stored cell is an index into
`query_points`), every round of the loops `for j` and `for i` of `createGrid`
keeps it, the counter stays the number of query points after every round of
the loop `for k`, so it holds after `createGrid`, and no lookup
`query_points[box->vertices[i]]` of `writeGrid` is out of range. -/
theorem createGrid_slots_in_bounds (E : Env) (points : List Vertex) :
    SlotsValid ⟨[], [], 0⟩ ∧
    (∀ (s : GridState) (c : Coord) (k : Nat), SlotsValid s →
      ((List.range k).foldl (setupVertex E s.cells c.1 c.2.1 c.2.2 (boxCenter E c))
          (FastBox.fresh, s.query_points, s.global_index)).2.2 =
        ((List.range k).foldl (setupVertex E s.cells c.1 c.2.1 c.2.2 (boxCenter E c))
          (FastBox.fresh, s.query_points, s.global_index)).2.1.length) ∧
    (∀ (s : GridState) (index_x index_y index_z : Int) (j : Nat), SlotsValid s →
      SlotsValid (visitCell E index_x index_y index_z s j)) ∧
    (∀ (s : GridState) (p : Vertex), SlotsValid s → SlotsValid (processPoint E s p)) ∧
    (∀ n : Nat, SlotsValid (createGrid E (points.take n))) ∧
    SlotsValid (createGrid E points) ∧
    (writeGrid (createGrid E points)).isSome :=
  ⟨slotsValid_init,
   fun s c k hs => setupVertex_rounds_counter E s.cells c.1 c.2.1 c.2.2 (boxCenter E c) _ k hs.1,
   fun s ix iy iz j hs => visitCell_valid E ix iy iz s j hs,
   fun s p hs => processPoint_valid E s p hs,
   fun n => createGrid_valid E (points.take n),
   createGrid_valid E points,
   writeGrid_isSome _ (createGrid_valid E points)⟩

/-- C19. Slots agree exactly on shared corners: with the key function injective
on the coordinates created or probed, any two created cells `c₁`, `c₂` are stored
under their keys, and for corners `k₁`, `k₂` their slots hold the same index
exactly when `2 * c₁ + box_creation_table[k₁] = 2 * c₂ + box_creation_table[k₂]`;
so the eight slots of one cell hold pairwise different indices. -/
theorem createGrid_slots_agree (E : Env) (points : List Vertex)
    (hinj : HashInjOn E (touchedCoords E points)) (c₁ c₂ : Coord)
    (h₁ : c₁ ∈ cellCoords E points) (h₂ : c₂ ∈ cellCoords E points) :
    ∃ b₁ b₂ : FastBox,
      find (createGrid E points).cells (keyOf E c₁) = some b₁ ∧
      find (createGrid E points).cells (keyOf E c₂) = some b₂ ∧
      (∀ k₁ < 8, ∀ k₂ < 8, (b₁.vertex k₁ = b₂.vertex k₂ ↔ corner c₁ k₁ = corner c₂ k₂)) ∧
      (∀ k₁ < 8, ∀ k₂ < 8, k₁ ≠ k₂ → b₁.vertex k₁ ≠ b₁.vertex k₂) :=
  gridInv_slots_agree E points hinj c₁ c₂ h₁ h₂

/-- C19, at the cells `(0, 0, 0)` and `(1, 0, 0)` around a point at the origin. -/
theorem createGrid_slots_agree_witness :
    HashInjOn unitGrid (touchedCoords unitGrid [⟨0, 0, 0⟩]) ∧
    ((0, 0, 0) : Coord) ∈ cellCoords unitGrid [⟨0, 0, 0⟩] ∧
    ((1, 0, 0) : Coord) ∈ cellCoords unitGrid [⟨0, 0, 0⟩] ∧
    ∃ b₁ b₂ : FastBox,
      find (createGrid unitGrid [⟨0, 0, 0⟩]).cells (keyOf unitGrid (0, 0, 0)) = some b₁ ∧
      find (createGrid unitGrid [⟨0, 0, 0⟩]).cells (keyOf unitGrid (1, 0, 0)) = some b₂ ∧
      (∀ k₁ < 8, ∀ k₂ < 8,
        (b₁.vertex k₁ = b₂.vertex k₂ ↔ corner (0, 0, 0) k₁ = corner (1, 0, 0) k₂)) ∧
      (∀ k₁ < 8, ∀ k₂ < 8, k₁ ≠ k₂ → b₁.vertex k₁ ≠ b₁.vertex k₂) :=
  ⟨unitGrid_injOn_origin, by decide!, by decide!,
   createGrid_slots_agree unitGrid [⟨0, 0, 0⟩] unitGrid_injOn_origin (0, 0, 0) (1, 0, 0)
     (by decide!) (by decide!)⟩

end FastGrid
